import Mathlib

/-
  Verification model of src/Hannystars_17/autotrader.cc (Ready Trader Go
  competitive autotrader).  The trading logic of the C++ file is embedded
  shallowly: each member function of AutoTrader becomes a pure Lean function
  from the trader state (the member fields) to a new state plus the list of
  outbound commands it emits (SendInsertOrder / SendCancelOrder /
  SendHedgeOrder).  Machine integers are modelled as Nat / Int with explicit
  reductions modulo 2 ^ 64 at the points where the C++ code converts between
  `unsigned long` and `long`.
-/

namespace AutoTrader

/-! ### Configuration constants (autotrader.cc lines 32-37) -/

def POSITION_LIMIT : Int := 100

def TICK_SIZE_IN_CENTS : Nat := 100

def MAX_UNHEDGED_LOTS : Int := 10

def UNHEDGED_LOTS_TIME_LIMIT : Nat := 57500

/-- Modelled from the spec: `MINIMUM_BID` comes from the ready_trader_go
protocol header, which is not part of src/.  The spec describes the hedge
floor price as the nearest tick at or above the venue minimum bid; the
Ready Trader Go venue minimum bid is 1 cent. -/
def MINIMUM_BID : Nat := 1

/-- Modelled from the spec: `MAXIMUM_ASK` comes from the ready_trader_go
protocol header, which is not part of src/.  The spec describes the hedge
ceiling price as the nearest tick at or below the venue maximum ask. -/
def MAXIMUM_ASK : Nat := 2147483647

def MIN_BID_NEAREST_TICK : Nat :=
  (MINIMUM_BID + TICK_SIZE_IN_CENTS) / TICK_SIZE_IN_CENTS * TICK_SIZE_IN_CENTS

def MAX_ASK_NEAREST_TICK : Nat :=
  MAXIMUM_ASK / TICK_SIZE_IN_CENTS * TICK_SIZE_IN_CENTS

/-! ### Machine integers

The C++ code mixes `long` and `unsigned long` (both 64 bits wide here).
`toULong i` is the value of an `unsigned long` that receives the signed
value `i` (reduction modulo 2 ^ 64); `toLong n` is the value of
`(long) n` for an unsigned value `n` (two-complement reinterpretation). -/

def ULONG_MOD : Nat := 2 ^ 64

def LONG_HALF : Nat := 2 ^ 63

/-- Value of an `unsigned long` variable assigned the signed value `i`. -/
def toULong (i : Int) : Nat := (i % (ULONG_MOD : Int)).toNat

/-- Value of `(long) n` where `n` holds an unsigned 64-bit value. -/
def toLong (n : Nat) : Int :=
  if n % ULONG_MOD < LONG_HALF then ((n % ULONG_MOD : Nat) : Int)
  else ((n % ULONG_MOD : Nat) : Int) - (ULONG_MOD : Int)

/-! ### Protocol datatypes -/

inductive Side
  | buy
  | sell
  deriving DecidableEq

inductive Lifespan
  | goodForDay
  deriving DecidableEq

inductive Instrument
  | future
  | etf
  deriving DecidableEq

/-- An outbound command of the engine: `SendInsertOrder`, `SendCancelOrder`
or `SendHedgeOrder`. -/
inductive Command
  | insertOrder (id : Nat) (side : Side) (price : Nat) (volume : Nat) (lifespan : Lifespan)
  | cancelOrder (id : Nat)
  | hedgeOrder (id : Nat) (side : Side) (price : Nat) (volume : Nat)
  deriving DecidableEq

/-- Modelled from the spec: the member fields of class AutoTrader.  The
header autotrader.h is not part of src/, so the field list is reconstructed
from the uses in autotrader.cc and the data model of the spec (section 3):
position and hedge position are signed integers starting at 0, order ids use
the sentinel 0 for none, identifiers come from one monotonic counter
(starting at 1, the first id ever sent is 1), and the next-quote volumes are
positive at start-up (the spec start-up scenario sends both quotes) and
consistent with the recomputation rule at position 0, which gives 50/50 for
a position limit of 100.  `mStartTime` is the debounce timestamp in
milliseconds. -/
structure State where
  mAskId : Nat := 0
  mAskPrice : Nat := 0
  mAskVolume : Nat := 0
  mBidId : Nat := 0
  mBidPrice : Nat := 0
  mBidVolume : Nat := 0
  mAsks : Finset Nat := ∅
  mBids : Finset Nat := ∅
  mPosition : Int := 0
  mHedgePosition : Int := 0
  mNewAskVolume : Nat := 50
  mNewBidVolume : Nat := 50
  mNextMessageId : Nat := 1
  mStartTime : Nat := 0
  deriving DecidableEq

/-! ### Member functions (autotrader.cc lines 43-230)

Each function returns the updated state together with the list of outbound
commands emitted during the call, in order. -/

/-- AutoTrader::CancelAskOrder (lines 43-50). -/
def cancelAskOrder (newAskPrice : Nat) (s : State) : State × List Command :=
  if s.mAskId ≠ 0 ∧ newAskPrice ≠ 0 ∧ newAskPrice ≠ s.mAskPrice then
    ({ s with mAskId := 0 }, [Command.cancelOrder s.mAskId])
  else (s, [])

/-- AutoTrader::CancelBidOrder (lines 52-59). -/
def cancelBidOrder (newBidPrice : Nat) (s : State) : State × List Command :=
  if s.mBidId ≠ 0 ∧ newBidPrice ≠ 0 ∧ newBidPrice ≠ s.mBidPrice then
    ({ s with mBidId := 0 }, [Command.cancelOrder s.mBidId])
  else (s, [])

/-- AutoTrader::InsertAskOrder (lines 61-73).  The C++ computes
`std::min((long)(mPosition + POSITION_LIMIT - mAskVolume), (long)newAskVolume)`
and assigns the signed result back into the `unsigned long` parameter
`newAskVolume` (a reduction modulo 2 ^ 64); the test `newAskVolume > 0` is
then a test on the unsigned value, i.e. it holds iff the reduced value is
nonzero. -/
def insertAskOrder (newAskPrice : Nat) (newAskVolume : Nat) (s : State) :
    State × List Command :=
  let vol : Nat :=
    toULong (min (toLong (toULong (s.mPosition + POSITION_LIMIT - (s.mAskVolume : Int))))
      (toLong newAskVolume))
  if s.mAskId = 0 ∧ newAskPrice ≠ 0 ∧ vol ≠ 0 then
    ({ s with
        mAskId := s.mNextMessageId
        mNextMessageId := s.mNextMessageId + 1
        mAskPrice := newAskPrice
        mAskVolume := vol
        mAsks := insert s.mNextMessageId s.mAsks },
      [Command.insertOrder s.mNextMessageId Side.sell newAskPrice vol Lifespan.goodForDay])
  else (s, [])

/-- AutoTrader::InsertBidOrder (lines 75-87), mirror of insertAskOrder with
headroom `POSITION_LIMIT - mPosition - mBidVolume`. -/
def insertBidOrder (newBidPrice : Nat) (newBidVolume : Nat) (s : State) :
    State × List Command :=
  let vol : Nat :=
    toULong (min (toLong (toULong (POSITION_LIMIT - s.mPosition - (s.mBidVolume : Int))))
      (toLong newBidVolume))
  if s.mBidId = 0 ∧ newBidPrice ≠ 0 ∧ vol ≠ 0 then
    ({ s with
        mBidId := s.mNextMessageId
        mNextMessageId := s.mNextMessageId + 1
        mBidPrice := newBidPrice
        mBidVolume := vol
        mBids := insert s.mNextMessageId s.mBids },
      [Command.insertOrder s.mNextMessageId Side.buy newBidPrice vol Lifespan.goodForDay])
  else (s, [])

/-- AutoTrader::HedgeOrder (lines 89-103).  The hedge volumes are stored in
`unsigned long` locals; under the branch conditions they are the positive
excess over MAX_UNHEDGED_LOTS. -/
def hedgeOrder (s : State) : State × List Command :=
  if s.mPosition + s.mHedgePosition > MAX_UNHEDGED_LOTS then
    let askVolume : Nat := toULong (s.mPosition + s.mHedgePosition - MAX_UNHEDGED_LOTS)
    ({ s with
        mNextMessageId := s.mNextMessageId + 1
        mHedgePosition := s.mHedgePosition - (askVolume : Int) },
      [Command.hedgeOrder s.mNextMessageId Side.sell MIN_BID_NEAREST_TICK askVolume])
  else if s.mPosition + s.mHedgePosition < -MAX_UNHEDGED_LOTS then
    let bidVolume : Nat := toULong (-(s.mPosition + s.mHedgePosition + MAX_UNHEDGED_LOTS))
    ({ s with
        mNextMessageId := s.mNextMessageId + 1
        mHedgePosition := s.mHedgePosition + (bidVolume : Int) },
      [Command.hedgeOrder s.mNextMessageId Side.buy MAX_ASK_NEAREST_TICK bidVolume])
  else (s, [])

/-- Source line 180.  In the C++ expression
`(mPosition < 0) ? std::ceil((POSITION_LIMIT - mPosition) / 2) : std::floor((POSITION_LIMIT - mPosition) / 2)`
the quotient `(POSITION_LIMIT - mPosition) / 2` is C++ integer division
(truncation toward zero) of two integers, so `std::ceil` and `std::floor`
are applied to a value that is already an integer and both are the
identity.  `Int.tdiv` is truncating division, matching C++. -/
def newBidVolumeCode (pos : Int) : Int :=
  if pos < 0 then Int.tdiv (POSITION_LIMIT - pos) 2 else Int.tdiv (POSITION_LIMIT - pos) 2

/-- The recomputation rule as worded by the spec (section 4.4): real ceiling
of `(positionLimit - position) / 2` for a negative position, floor
otherwise.  For an integer `m`, the ceiling of `m / 2` is `(m + 1) / 2` with
floor division and the floor of `m / 2` is `m / 2` with floor division. -/
def newBidVolumeSpec (pos : Int) : Int :=
  if pos < 0 then (POSITION_LIMIT - pos + 1) / 2 else (POSITION_LIMIT - pos) / 2

/-- AutoTrader::ErrorMessageHandler (lines 111-119) and
AutoTrader::OrderStatusMessageHandler (lines 184-216).  The two are mutually
referenced in the source (the error handler calls the status handler), so the
status handler is defined first.  In
`std::max((long)(mAskVolume - fillVolume), 0L)` the subtraction is unsigned
(wrapping), the result is reinterpreted as signed and clamped at zero. -/
def orderStatusMessageHandler (clientOrderId fillVolume remainingVolume : Nat)
    (fees : Int) (s : State) : State × List Command :=
  if remainingVolume = 0 then
    let s1 : State :=
      if clientOrderId = s.mAskId then { s with mAskId := 0, mAskVolume := 0 }
      else if clientOrderId = s.mBidId then { s with mBidId := 0, mBidVolume := 0 }
      else s
    ({ s1 with mAsks := s1.mAsks.erase clientOrderId, mBids := s1.mBids.erase clientOrderId },
      [])
  else if 0 < fillVolume then
    if clientOrderId = s.mAskId then
      ({ s with
          mAskVolume :=
            toULong (max (toLong (toULong ((s.mAskVolume : Int) - (fillVolume : Int)))) 0) },
        [])
    else if clientOrderId = s.mBidId then
      ({ s with
          mBidVolume :=
            toULong (max (toLong (toULong ((s.mBidVolume : Int) - (fillVolume : Int)))) 0) },
        [])
    else (s, [])
  else (s, [])

/-- AutoTrader::ErrorMessageHandler (lines 111-119): on an error naming a
known outstanding identifier, synthesize a zero-remaining-volume status
update; otherwise only log. -/
def errorMessageHandler (clientOrderId : Nat) (s : State) : State × List Command :=
  if clientOrderId ≠ 0 ∧ (clientOrderId ∈ s.mAsks ∨ clientOrderId ∈ s.mBids) then
    orderStatusMessageHandler clientOrderId 0 0 0 s
  else (s, [])

/-- AutoTrader::OrderFilledMessageHandler (lines 165-182).  The position is
adjusted by `(long) volume` according to which live-order set contains the
identifier, then the next-quote volumes are recomputed unconditionally
(lines 180-181); line 181 stores `mPosition + mNewBidVolume` computed in
unsigned arithmetic into the unsigned field. -/
def orderFilledMessageHandler (clientOrderId price volume : Nat) (s : State) :
    State × List Command :=
  let s1 : State :=
    if clientOrderId ∈ s.mAsks then { s with mPosition := s.mPosition - toLong volume }
    else if clientOrderId ∈ s.mBids then { s with mPosition := s.mPosition + toLong volume }
    else s
  let nb : Nat := toULong (newBidVolumeCode s1.mPosition)
  ({ s1 with
      mNewBidVolume := nb
      mNewAskVolume := toULong (s1.mPosition + (nb : Int)) },
    [])

/-- AutoTrader::OrderBookMessageHandler (lines 129-163).  The handler only
reads index 0 of the four price/volume arrays (the best ask price and best
bid price), so the model takes those two numbers directly; the sequence
number and the volumes are unused.  `now` is the value of
`std::chrono::steady_clock::now()` in milliseconds during the call (the
source reads the clock up to twice in the same handler; the calls are
microseconds apart and are modelled as a single instant). -/
def orderBookMessageHandler (instrument : Instrument) (now : Nat)
    (askPrice bidPrice : Nat) (s : State) : State × List Command :=
  if instrument = Instrument.future then
    let p1 := cancelAskOrder askPrice s
    let p2 := insertAskOrder askPrice p1.1.mNewAskVolume p1.1
    let p3 := cancelBidOrder bidPrice p2.1
    let p4 := insertBidOrder bidPrice p3.1.mNewBidVolume p3.1
    if |p4.1.mPosition + p4.1.mHedgePosition| ≤ MAX_UNHEDGED_LOTS then
      ({ p4.1 with mStartTime := now }, p1.2 ++ p2.2 ++ p3.2 ++ p4.2)
    else if UNHEDGED_LOTS_TIME_LIMIT ≤ now - p4.1.mStartTime then
      let p5 := hedgeOrder p4.1
      ({ p5.1 with mStartTime := now }, p1.2 ++ p2.2 ++ p3.2 ++ p4.2 ++ p5.2)
    else (p4.1, p1.2 ++ p2.2 ++ p3.2 ++ p4.2)
  else (s, [])

/-- AutoTrader::TradeTicksMessageHandler (lines 218-230): logging only, for
every instrument. -/
def tradeTicksMessageHandler (instrument : Instrument) (askPrice bidPrice : Nat)
    (s : State) : State × List Command :=
  (s, [])

/-- AutoTrader::HedgeFilledMessageHandler (lines 121-127): logging only. -/
def hedgeFilledMessageHandler (clientOrderId price volume : Nat) (s : State) :
    State × List Command :=
  (s, [])

/-! ### Arithmetic facts about the machine-integer casts -/

theorem ULONG_MOD_int : ((ULONG_MOD : Nat) : Int) = 18446744073709551616 := by
  norm_num [ULONG_MOD]

theorem LONG_HALF_int : ((LONG_HALF : Nat) : Int) = 9223372036854775808 := by
  norm_num [LONG_HALF]

theorem toULong_coe (i : Int) : (toULong i : Int) = i % (ULONG_MOD : Int) := by
  unfold toULong
  exact Int.toNat_of_nonneg (Int.emod_nonneg _ (by rw [ULONG_MOD_int]; norm_num))

theorem toULong_of_range {i : Int} (h0 : 0 ≤ i) (h1 : i < (ULONG_MOD : Int)) :
    (toULong i : Int) = i := by
  rw [toULong_coe, Int.emod_eq_of_lt h0 h1]

theorem toULong_natCast {n : Nat} (h : n < ULONG_MOD) : toULong (n : Int) = n := by
  have h2 : ((toULong (n : Int) : Nat) : Int) = (n : Int) :=
    toULong_of_range (Int.natCast_nonneg n) (by exact_mod_cast h)
  exact_mod_cast h2

theorem toLong_of_small {n : Nat} (h : n < LONG_HALF) : toLong n = (n : Int) := by
  have hlt : n < ULONG_MOD := lt_trans h (by norm_num [LONG_HALF, ULONG_MOD])
  unfold toLong
  rw [Nat.mod_eq_of_lt hlt, if_pos h]

theorem toLong_toULong {i : Int} (h0 : -(LONG_HALF : Int) ≤ i)
    (h1 : i < (LONG_HALF : Int)) : toLong (toULong i) = i := by
  have hHM : (LONG_HALF : Int) < (ULONG_MOD : Int) := by
    rw [LONG_HALF_int, ULONG_MOD_int]; norm_num
  by_cases hi : 0 ≤ i
  · have hv : (toULong i : Int) = i := toULong_of_range hi (lt_trans h1 hHM)
    have hsmall : toULong i < LONG_HALF := by
      have : ((toULong i : Nat) : Int) < (LONG_HALF : Int) := by rw [hv]; exact h1
      exact_mod_cast this
    rw [toLong_of_small hsmall, hv]
  · push_neg at hi
    have hmod : i % (ULONG_MOD : Int) = i + (ULONG_MOD : Int) := by
      rw [ULONG_MOD_int]
      rw [ULONG_MOD_int, LONG_HALF_int] at *
      omega
    have hv : (toULong i : Int) = i + (ULONG_MOD : Int) := by rw [toULong_coe, hmod]
    have hge : ¬ toULong i % ULONG_MOD < LONG_HALF := by
      have hlt : toULong i < ULONG_MOD := by
        have : ((toULong i : Nat) : Int) < ((ULONG_MOD : Nat) : Int) := by
          rw [hv]; omega
        exact_mod_cast this
      rw [Nat.mod_eq_of_lt hlt]
      intro hcon
      have : ((toULong i : Nat) : Int) < ((LONG_HALF : Nat) : Int) := by exact_mod_cast hcon
      rw [hv, ULONG_MOD_int, LONG_HALF_int] at this
      rw [LONG_HALF_int] at h0
      omega
    have hlt : toULong i < ULONG_MOD := by
      have : ((toULong i : Nat) : Int) < ((ULONG_MOD : Nat) : Int) := by rw [hv]; omega
      exact_mod_cast this
    unfold toLong
    rw [if_neg hge, Nat.mod_eq_of_lt hlt, hv]
    ring

/-- The partial-fill volume update of OrderStatusMessageHandler equals
truncated subtraction when both operands are in signed range: the unsigned
subtraction wraps, the `(long)` cast makes the wrapped value negative, and
`std::max(.., 0L)` clamps it to zero. -/
theorem status_vol_eq {a f : Nat} (ha : a < LONG_HALF) (hf : f < LONG_HALF) :
    toULong (max (toLong (toULong ((a : Int) - (f : Int)))) 0) = a - f := by
  by_cases hle : f ≤ a
  · have h0 : (0 : Int) ≤ (a : Int) - (f : Int) := by
      have : (f : Int) ≤ (a : Int) := by exact_mod_cast hle
      omega
    have h1 : (a : Int) - (f : Int) < (LONG_HALF : Int) := by
      have : (a : Int) < (LONG_HALF : Int) := by exact_mod_cast ha
      omega
    rw [toLong_toULong (by omega) h1]
    have hmax : max ((a : Int) - (f : Int)) 0 = (a : Int) - (f : Int) :=
      max_eq_left h0
    rw [hmax]
    have : ((a - f : Nat) : Int) = (a : Int) - (f : Int) := by
      omega
    rw [← this, toULong_natCast]
    have : a - f < LONG_HALF := by omega
    calc a - f < LONG_HALF := this
    _ < ULONG_MOD := by norm_num [LONG_HALF, ULONG_MOD]
  · push_neg at hle
    have h1 : (a : Int) - (f : Int) < 0 := by
      have : (a : Int) < (f : Int) := by exact_mod_cast hle
      omega
    have h0 : -(LONG_HALF : Int) ≤ (a : Int) - (f : Int) := by
      have : (f : Int) < (LONG_HALF : Int) := by exact_mod_cast hf
      omega
    rw [toLong_toULong h0 (by omega)]
    have hmax : max ((a : Int) - (f : Int)) 0 = 0 := max_eq_right (le_of_lt h1)
    rw [hmax]
    have hz : toULong 0 = 0 := by decide
    rw [hz]
    omega

/-! ### C9: hedging-instrument updates are observational only -/

/-- C9: for a book update whose instrument is the hedging instrument (the
instrument other than the one whose updates drive quoting; in the source the
quoting branch requires `instrument == Instrument::FUTURE`) the handler
leaves the whole state unchanged and emits no command, and a trade-tick
event for it likewise leaves the state unchanged and emits nothing (the
source ignores trade ticks for every instrument). -/
theorem hedging_instrument_observational (s : State) (now askPrice bidPrice : Nat) :
    orderBookMessageHandler Instrument.etf now askPrice bidPrice s = (s, []) ∧
    tradeTicksMessageHandler Instrument.etf askPrice bidPrice s = (s, []) := by
  constructor
  · unfold orderBookMessageHandler
    rw [if_neg (by intro h; cases h)]
  · rfl

/-! ### C3: hedge order sizing -/

/-- C3: when the hedge evaluation fires with combined exposure
`Position + HedgePosition = MAX_UNHEDGED_LOTS + k` (k > 0, representable),
HedgeOrder sends exactly one hedge sell of size k at the floor price and
decrements the hedge position by k at send time; symmetrically for combined
exposure `-MAX_UNHEDGED_LOTS - k` it sends exactly one hedge buy of size k
at the ceiling price and increments the hedge position by k. -/
theorem hedge_order_sizes (s : State) (k : Nat) (hk : 0 < k) (hk2 : k < LONG_HALF) :
    (s.mPosition + s.mHedgePosition = MAX_UNHEDGED_LOTS + k →
      hedgeOrder s =
        ({ s with
            mNextMessageId := s.mNextMessageId + 1
            mHedgePosition := s.mHedgePosition - k },
          [Command.hedgeOrder s.mNextMessageId Side.sell MIN_BID_NEAREST_TICK k])) ∧
    (s.mPosition + s.mHedgePosition = -MAX_UNHEDGED_LOTS - k →
      hedgeOrder s =
        ({ s with
            mNextMessageId := s.mNextMessageId + 1
            mHedgePosition := s.mHedgePosition + k },
          [Command.hedgeOrder s.mNextMessageId Side.buy MAX_ASK_NEAREST_TICK k])) := by
  have hkM : k < ULONG_MOD := lt_trans hk2 (by norm_num [LONG_HALF, ULONG_MOD])
  have hk0 : (0 : Int) < (k : Int) := by exact_mod_cast hk
  constructor
  · intro h
    have hgt : s.mPosition + s.mHedgePosition > MAX_UNHEDGED_LOTS := by
      rw [h]; omega
    have hval : s.mPosition + s.mHedgePosition - MAX_UNHEDGED_LOTS = (k : Int) := by
      rw [h]; ring
    unfold hedgeOrder
    rw [if_pos hgt, hval, toULong_natCast hkM]
  · intro h
    have hgt : ¬ s.mPosition + s.mHedgePosition > MAX_UNHEDGED_LOTS := by
      rw [h]
      have : (0 : Int) < MAX_UNHEDGED_LOTS := by norm_num [MAX_UNHEDGED_LOTS]
      omega
    have hlt : s.mPosition + s.mHedgePosition < -MAX_UNHEDGED_LOTS := by
      rw [h]; omega
    have hval : -(s.mPosition + s.mHedgePosition + MAX_UNHEDGED_LOTS) = (k : Int) := by
      rw [h]; ring
    unfold hedgeOrder
    rw [if_neg hgt, if_pos hlt, hval, toULong_natCast hkM]

/-- Witness for hedge_order_sizes at a concrete state with exposure 15
(= 10 + 5). -/
def hedgeWitnessState : State := { mPosition := 15 }

theorem hedge_order_sizes_witness :
    hedgeOrder hedgeWitnessState =
      ({ hedgeWitnessState with
          mNextMessageId := hedgeWitnessState.mNextMessageId + 1
          mHedgePosition := hedgeWitnessState.mHedgePosition - 5 },
        [Command.hedgeOrder hedgeWitnessState.mNextMessageId Side.sell
          MIN_BID_NEAREST_TICK 5]) :=
  (hedge_order_sizes hedgeWitnessState 5 (by norm_num)
    (by norm_num [LONG_HALF])).1 (by norm_num [hedgeWitnessState, MAX_UNHEDGED_LOTS])

/-! ### C5: next-quote volume recomputation -/

/-- A state holding a resting ask of volume 4 (id 1), position 0. -/
def fillStateB : State := { mAskId := 1, mAskVolume := 4, mAsks := {1}, mNextMessageId := 2 }

/-- A state holding a resting ask of volume 5 (id 1), position 0. -/
def fillStateA : State := { mAskId := 1, mAskVolume := 5, mAsks := {1}, mNextMessageId := 2 }

/-- C5 (code bug): after a fill leaving Position = -4 the code computes
nextBidSize = 52 and nextAskSize = 48, matching the claim instance; but
after a fill leaving Position = -5 the code computes nextBidSize = 52
(because `(POSITION_LIMIT - mPosition) / 2` truncates before `std::ceil` is
applied), while the claimed formula `ceil((positionLimit - position)/2)` for
a negative position gives 53. -/
theorem next_quote_volume_bug :
    ((orderFilledMessageHandler 1 10000 4 fillStateB).1.mPosition = -4 ∧
      (orderFilledMessageHandler 1 10000 4 fillStateB).1.mNewBidVolume = 52 ∧
      (orderFilledMessageHandler 1 10000 4 fillStateB).1.mNewAskVolume = 48) ∧
    ((orderFilledMessageHandler 1 10000 5 fillStateA).1.mPosition = -5 ∧
      (orderFilledMessageHandler 1 10000 5 fillStateA).1.mNewBidVolume = 52 ∧
      newBidVolumeSpec (-5) = 53 ∧
      (orderFilledMessageHandler 1 10000 5 fillStateA).1.mNewBidVolume ≠ 53) := by
  decide

/-! ### Closed forms for the two insert routines

Under the risk-headroom precondition that the engine maintains (tracked
resting volume within the position limit, see the invariant section below)
and representability of the requested volume, the insert routine sends
exactly when no order of that side rests, the price is nonzero, and the
clamped volume `min(headroom, requested)` is positive; the sent volume is
that minimum. -/

theorem insertAskOrder_spec (s : State) (p req : Nat)
    (hPu : s.mPosition ≤ POSITION_LIMIT)
    (hA : (s.mAskVolume : Int) ≤ s.mPosition + POSITION_LIMIT)
    (hr : req < LONG_HALF) :
    insertAskOrder p req s =
      if s.mAskId = 0 ∧ p ≠ 0 ∧
          0 < min (s.mPosition + POSITION_LIMIT - (s.mAskVolume : Int)) (req : Int) then
        ({ s with
            mAskId := s.mNextMessageId
            mNextMessageId := s.mNextMessageId + 1
            mAskPrice := p
            mAskVolume :=
              (min (s.mPosition + POSITION_LIMIT - (s.mAskVolume : Int)) (req : Int)).toNat
            mAsks := insert s.mNextMessageId s.mAsks },
          [Command.insertOrder s.mNextMessageId Side.sell p
            (min (s.mPosition + POSITION_LIMIT - (s.mAskVolume : Int)) (req : Int)).toNat
            Lifespan.goodForDay])
      else (s, []) := by
  have hPL : POSITION_LIMIT = (100 : Int) := rfl
  set H : Int := s.mPosition + POSITION_LIMIT - (s.mAskVolume : Int) with hHdef
  have hH0 : 0 ≤ H := by omega
  have hH1 : H < (LONG_HALF : Int) := by
    rw [LONG_HALF_int]
    have h1 : (0 : Int) ≤ (s.mAskVolume : Int) := Int.natCast_nonneg _
    rw [hPL] at *
    omega
  have hcast : toLong (toULong H) = H := toLong_toULong (by omega) hH1
  have hreq : toLong req = (req : Int) := toLong_of_small hr
  have hmin0 : 0 ≤ min H (req : Int) := le_min hH0 (Int.natCast_nonneg _)
  have hminU : min H (req : Int) < (ULONG_MOD : Int) := by
    have h1 : (LONG_HALF : Int) < (ULONG_MOD : Int) := by
      rw [LONG_HALF_int, ULONG_MOD_int]; norm_num
    have h2 : min H (req : Int) ≤ H := min_le_left _ _
    omega
  have hv : (toULong (min H (req : Int)) : Int) = min H (req : Int) :=
    toULong_of_range hmin0 hminU
  have hvol : toULong (min H (req : Int)) = (min H (req : Int)).toNat := by omega
  have hiff : (s.mAskId = 0 ∧ p ≠ 0 ∧ toULong (min H (req : Int)) ≠ 0) ↔
      (s.mAskId = 0 ∧ p ≠ 0 ∧ 0 < min H (req : Int)) := by
    constructor
    · rintro ⟨h1, h2, h3⟩
      refine ⟨h1, h2, ?_⟩
      omega
    · rintro ⟨h1, h2, h3⟩
      refine ⟨h1, h2, ?_⟩
      omega
  simp only [insertAskOrder]
  rw [← hHdef, hcast, hreq]
  exact if_congr hiff (by rw [hvol]) rfl

theorem insertBidOrder_spec (s : State) (p req : Nat)
    (hPl : -POSITION_LIMIT ≤ s.mPosition)
    (hB : (s.mBidVolume : Int) ≤ POSITION_LIMIT - s.mPosition)
    (hr : req < LONG_HALF) :
    insertBidOrder p req s =
      if s.mBidId = 0 ∧ p ≠ 0 ∧
          0 < min (POSITION_LIMIT - s.mPosition - (s.mBidVolume : Int)) (req : Int) then
        ({ s with
            mBidId := s.mNextMessageId
            mNextMessageId := s.mNextMessageId + 1
            mBidPrice := p
            mBidVolume :=
              (min (POSITION_LIMIT - s.mPosition - (s.mBidVolume : Int)) (req : Int)).toNat
            mBids := insert s.mNextMessageId s.mBids },
          [Command.insertOrder s.mNextMessageId Side.buy p
            (min (POSITION_LIMIT - s.mPosition - (s.mBidVolume : Int)) (req : Int)).toNat
            Lifespan.goodForDay])
      else (s, []) := by
  have hPL : POSITION_LIMIT = (100 : Int) := rfl
  set H : Int := POSITION_LIMIT - s.mPosition - (s.mBidVolume : Int) with hHdef
  have hH0 : 0 ≤ H := by omega
  have hH1 : H < (LONG_HALF : Int) := by
    rw [LONG_HALF_int]
    have h1 : (0 : Int) ≤ (s.mBidVolume : Int) := Int.natCast_nonneg _
    rw [hPL] at *
    omega
  have hcast : toLong (toULong H) = H := toLong_toULong (by omega) hH1
  have hreq : toLong req = (req : Int) := toLong_of_small hr
  have hmin0 : 0 ≤ min H (req : Int) := le_min hH0 (Int.natCast_nonneg _)
  have hminU : min H (req : Int) < (ULONG_MOD : Int) := by
    have h1 : (LONG_HALF : Int) < (ULONG_MOD : Int) := by
      rw [LONG_HALF_int, ULONG_MOD_int]; norm_num
    have h2 : min H (req : Int) ≤ H := min_le_left _ _
    omega
  have hv : (toULong (min H (req : Int)) : Int) = min H (req : Int) :=
    toULong_of_range hmin0 hminU
  have hvol : toULong (min H (req : Int)) = (min H (req : Int)).toNat := by omega
  have hiff : (s.mBidId = 0 ∧ p ≠ 0 ∧ toULong (min H (req : Int)) ≠ 0) ↔
      (s.mBidId = 0 ∧ p ≠ 0 ∧ 0 < min H (req : Int)) := by
    constructor
    · rintro ⟨h1, h2, h3⟩
      refine ⟨h1, h2, ?_⟩
      omega
    · rintro ⟨h1, h2, h3⟩
      refine ⟨h1, h2, ?_⟩
      omega
  simp only [insertBidOrder]
  rw [← hHdef, hcast, hreq]
  exact if_congr hiff (by rw [hvol]) rfl

/-! ### C2: insert guard and volume clamping -/

/-- C2: under the headroom precondition maintained by the engine (resting
volumes within the position limit, position within the limit) and
representable requested volumes, an order is sent iff no order of that side
rests (id 0), the price is nonzero, and the clamped volume is positive; the
sent volume is `min(requested, headroom)` with the headroom formulas of the
source; and every insert command that is emitted carries a positive
volume. -/
theorem insert_order_clamp (s : State) (askPrice bidPrice reqA reqB : Nat)
    (hPl : -POSITION_LIMIT ≤ s.mPosition) (hPu : s.mPosition ≤ POSITION_LIMIT)
    (hA : (s.mAskVolume : Int) ≤ s.mPosition + POSITION_LIMIT)
    (hB : (s.mBidVolume : Int) ≤ POSITION_LIMIT - s.mPosition)
    (hrA : reqA < LONG_HALF) (hrB : reqB < LONG_HALF) :
    (insertAskOrder askPrice reqA s =
      if s.mAskId = 0 ∧ askPrice ≠ 0 ∧
          0 < min (s.mPosition + POSITION_LIMIT - (s.mAskVolume : Int)) (reqA : Int) then
        ({ s with
            mAskId := s.mNextMessageId
            mNextMessageId := s.mNextMessageId + 1
            mAskPrice := askPrice
            mAskVolume :=
              (min (s.mPosition + POSITION_LIMIT - (s.mAskVolume : Int)) (reqA : Int)).toNat
            mAsks := insert s.mNextMessageId s.mAsks },
          [Command.insertOrder s.mNextMessageId Side.sell askPrice
            (min (s.mPosition + POSITION_LIMIT - (s.mAskVolume : Int)) (reqA : Int)).toNat
            Lifespan.goodForDay])
      else (s, [])) ∧
    (insertBidOrder bidPrice reqB s =
      if s.mBidId = 0 ∧ bidPrice ≠ 0 ∧
          0 < min (POSITION_LIMIT - s.mPosition - (s.mBidVolume : Int)) (reqB : Int) then
        ({ s with
            mBidId := s.mNextMessageId
            mNextMessageId := s.mNextMessageId + 1
            mBidPrice := bidPrice
            mBidVolume :=
              (min (POSITION_LIMIT - s.mPosition - (s.mBidVolume : Int)) (reqB : Int)).toNat
            mBids := insert s.mNextMessageId s.mBids },
          [Command.insertOrder s.mNextMessageId Side.buy bidPrice
            (min (POSITION_LIMIT - s.mPosition - (s.mBidVolume : Int)) (reqB : Int)).toNat
            Lifespan.goodForDay])
      else (s, [])) ∧
    (∀ c ∈ (insertAskOrder askPrice reqA s).2 ++ (insertBidOrder bidPrice reqB s).2,
      ∀ id sd pr v ls, c = Command.insertOrder id sd pr v ls → 0 < v) := by
  refine ⟨insertAskOrder_spec s askPrice reqA hPu hA hrA,
    insertBidOrder_spec s bidPrice reqB hPl hB hrB, ?_⟩
  intro c hc id sd pr v ls hceq
  rw [insertAskOrder_spec s askPrice reqA hPu hA hrA,
    insertBidOrder_spec s bidPrice reqB hPl hB hrB] at hc
  rcases List.mem_append.mp hc with hc1 | hc2
  · by_cases hcnd : s.mAskId = 0 ∧ askPrice ≠ 0 ∧
        0 < min (s.mPosition + POSITION_LIMIT - (s.mAskVolume : Int)) (reqA : Int)
    · rw [if_pos hcnd] at hc1
      simp only [List.mem_singleton] at hc1
      subst hc1
      cases hceq
      omega
    · rw [if_neg hcnd] at hc1
      simp at hc1
  · by_cases hcnd : s.mBidId = 0 ∧ bidPrice ≠ 0 ∧
        0 < min (POSITION_LIMIT - s.mPosition - (s.mBidVolume : Int)) (reqB : Int)
    · rw [if_pos hcnd] at hc2
      simp only [List.mem_singleton] at hc2
      subst hc2
      cases hceq
      omega
    · rw [if_neg hcnd] at hc2
      simp at hc2

/-- Witness for insert_order_clamp at the start-up state and nonzero
prices. -/
theorem insert_order_clamp_witness :
    (insertAskOrder 10000 50 {} =
      if (({} : State)).mAskId = 0 ∧ (10000 : Nat) ≠ 0 ∧
          0 < min ((({} : State)).mPosition + POSITION_LIMIT -
            (((({} : State)).mAskVolume : Nat) : Int)) ((50 : Nat) : Int) then
        ({ ({} : State) with
            mAskId := (({} : State)).mNextMessageId
            mNextMessageId := (({} : State)).mNextMessageId + 1
            mAskPrice := 10000
            mAskVolume :=
              (min ((({} : State)).mPosition + POSITION_LIMIT -
                (((({} : State)).mAskVolume : Nat) : Int)) ((50 : Nat) : Int)).toNat
            mAsks := insert (({} : State)).mNextMessageId (({} : State)).mAsks },
          [Command.insertOrder (({} : State)).mNextMessageId Side.sell 10000
            (min ((({} : State)).mPosition + POSITION_LIMIT -
              (((({} : State)).mAskVolume : Nat) : Int)) ((50 : Nat) : Int)).toNat
            Lifespan.goodForDay])
      else (({} : State), [])) ∧
    (∀ c ∈ (insertAskOrder 10000 50 ({} : State)).2 ++
        (insertBidOrder 9900 50 ({} : State)).2,
      ∀ id sd pr v ls, c = Command.insertOrder id sd pr v ls → 0 < v) :=
  ⟨(insert_order_clamp {} 10000 9900 50 50 (by norm_num [POSITION_LIMIT])
      (by norm_num [POSITION_LIMIT]) (by norm_num [POSITION_LIMIT])
      (by norm_num [POSITION_LIMIT]) (by norm_num [LONG_HALF])
      (by norm_num [LONG_HALF])).1,
    (insert_order_clamp {} 10000 9900 50 50 (by norm_num [POSITION_LIMIT])
      (by norm_num [POSITION_LIMIT]) (by norm_num [POSITION_LIMIT])
      (by norm_num [POSITION_LIMIT]) (by norm_num [LONG_HALF])
      (by norm_num [LONG_HALF])).2.2⟩

/-! ### C6: terminal events clean up completely -/

/-- C6: a status update with remaining volume 0 for order X leaves X absent
from both live-order sets; if X occupied the resting ask (resp. bid) slot,
that slot id and tracked volume are reset to 0; and an error callback for a
nonzero identifier present in either live-order set produces exactly the
state of a zero-remaining-volume status update for it. -/
theorem terminal_event_cleanup (s : State) (clientOrderId fillVolume : Nat) (fees : Int) :
    (clientOrderId ∉ ((orderStatusMessageHandler clientOrderId fillVolume 0 fees s).1).mAsks ∧
      clientOrderId ∉ ((orderStatusMessageHandler clientOrderId fillVolume 0 fees s).1).mBids) ∧
    (clientOrderId = s.mAskId →
      ((orderStatusMessageHandler clientOrderId fillVolume 0 fees s).1).mAskId = 0 ∧
      ((orderStatusMessageHandler clientOrderId fillVolume 0 fees s).1).mAskVolume = 0) ∧
    (clientOrderId = s.mBidId → clientOrderId ≠ s.mAskId →
      ((orderStatusMessageHandler clientOrderId fillVolume 0 fees s).1).mBidId = 0 ∧
      ((orderStatusMessageHandler clientOrderId fillVolume 0 fees s).1).mBidVolume = 0) ∧
    (clientOrderId ≠ 0 → (clientOrderId ∈ s.mAsks ∨ clientOrderId ∈ s.mBids) →
      errorMessageHandler clientOrderId s = orderStatusMessageHandler clientOrderId 0 0 0 s) := by
  refine ⟨⟨?_, ?_⟩, ?_, ?_, ?_⟩
  · simp only [orderStatusMessageHandler, if_pos rfl]
    exact Finset.not_mem_erase _ _
  · simp only [orderStatusMessageHandler, if_pos rfl]
    exact Finset.not_mem_erase _ _
  · intro h
    simp [orderStatusMessageHandler, h]
  · intro h hne
    subst h
    simp [orderStatusMessageHandler, hne]
  · intro h1 h2
    unfold errorMessageHandler
    rw [if_pos ⟨h1, h2⟩]

/-- Witness for terminal_event_cleanup at a state with resting ask id 1. -/
theorem terminal_event_cleanup_witness :
    (1 ∉ ((orderStatusMessageHandler 1 0 0 0 fillStateA).1).mAsks ∧
      ((orderStatusMessageHandler 1 0 0 0 fillStateA).1).mAskId = 0 ∧
      ((orderStatusMessageHandler 1 0 0 0 fillStateA).1).mAskVolume = 0) ∧
    errorMessageHandler 1 fillStateA = orderStatusMessageHandler 1 0 0 0 fillStateA :=
  ⟨⟨(terminal_event_cleanup fillStateA 1 0 0).1.1,
      (terminal_event_cleanup fillStateA 1 0 0).2.1 rfl⟩,
    (terminal_event_cleanup fillStateA 1 0 0).2.2.2 (by norm_num)
      (Or.inl (by decide))⟩

/-! ### C10: cancel resets only the order id -/

/-- C10: when a cancel fires, the state change is exactly `mAskId := 0`
(resp. `mBidId := 0`): price, tracked volume, the live-order sets and every
other field are untouched; and the retained tracked volume of the cancelled
order still appears in the headroom that clamps the volume of the next
insert on that side. -/
theorem cancel_only_resets_id (s : State) :
    (∀ newAskPrice, s.mAskId ≠ 0 → newAskPrice ≠ 0 → newAskPrice ≠ s.mAskPrice →
      cancelAskOrder newAskPrice s = ({ s with mAskId := 0 }, [Command.cancelOrder s.mAskId])) ∧
    (∀ newBidPrice, s.mBidId ≠ 0 → newBidPrice ≠ 0 → newBidPrice ≠ s.mBidPrice →
      cancelBidOrder newBidPrice s = ({ s with mBidId := 0 }, [Command.cancelOrder s.mBidId])) ∧
    (∀ p req, s.mPosition ≤ POSITION_LIMIT →
      (s.mAskVolume : Int) ≤ s.mPosition + POSITION_LIMIT → req < LONG_HALF →
      ∀ id sd pr v ls,
        Command.insertOrder id sd pr v ls ∈ (insertAskOrder p req ({ s with mAskId := 0 })).2 →
        (v : Int) = min (s.mPosition + POSITION_LIMIT - (s.mAskVolume : Int)) (req : Int)) ∧
    (∀ p req, -POSITION_LIMIT ≤ s.mPosition →
      (s.mBidVolume : Int) ≤ POSITION_LIMIT - s.mPosition → req < LONG_HALF →
      ∀ id sd pr v ls,
        Command.insertOrder id sd pr v ls ∈ (insertBidOrder p req ({ s with mBidId := 0 })).2 →
        (v : Int) = min (POSITION_LIMIT - s.mPosition - (s.mBidVolume : Int)) (req : Int)) := by
  refine ⟨?_, ?_, ?_, ?_⟩
  · intro p h1 h2 h3
    unfold cancelAskOrder
    rw [if_pos ⟨h1, h2, h3⟩]
  · intro p h1 h2 h3
    unfold cancelBidOrder
    rw [if_pos ⟨h1, h2, h3⟩]
  · intro p req hPu hA hr id sd pr v ls hmem
    rw [insertAskOrder_spec ({ s with mAskId := 0 }) p req hPu hA hr] at hmem
    by_cases hcnd : ({ s with mAskId := 0 } : State).mAskId = 0 ∧ p ≠ 0 ∧
        0 < min (s.mPosition + POSITION_LIMIT - (s.mAskVolume : Int)) (req : Int)
    · rw [if_pos hcnd] at hmem
      simp only [List.mem_singleton] at hmem
      cases hmem
      have h0 : 0 ≤ min (s.mPosition + POSITION_LIMIT - (s.mAskVolume : Int)) (req : Int) :=
        le_of_lt hcnd.2.2
      omega
    · rw [if_neg hcnd] at hmem
      simp at hmem
  · intro p req hPl hB hr id sd pr v ls hmem
    rw [insertBidOrder_spec ({ s with mBidId := 0 }) p req hPl hB hr] at hmem
    by_cases hcnd : ({ s with mBidId := 0 } : State).mBidId = 0 ∧ p ≠ 0 ∧
        0 < min (POSITION_LIMIT - s.mPosition - (s.mBidVolume : Int)) (req : Int)
    · rw [if_pos hcnd] at hmem
      simp only [List.mem_singleton] at hmem
      cases hmem
      have h0 : 0 ≤ min (POSITION_LIMIT - s.mPosition - (s.mBidVolume : Int)) (req : Int) :=
        le_of_lt hcnd.2.2
      omega
    · rw [if_neg hcnd] at hmem
      simp at hmem

/-- A state with a resting ask (id 1, price 10000, volume 60). -/
def cancelWitnessState : State :=
  { mAskId := 1, mAskPrice := 10000, mAskVolume := 60, mAsks := {1}, mNextMessageId := 2 }

theorem cancel_only_resets_id_witness :
    cancelAskOrder 10100 cancelWitnessState =
      ({ cancelWitnessState with mAskId := 0 },
        [Command.cancelOrder cancelWitnessState.mAskId]) ∧
    ((40 : Nat) : Int) =
      min (cancelWitnessState.mPosition + POSITION_LIMIT -
        (cancelWitnessState.mAskVolume : Int)) ((50 : Nat) : Int) :=
  ⟨(cancel_only_resets_id cancelWitnessState).1 10100 (by norm_num [cancelWitnessState])
      (by norm_num) (by norm_num [cancelWitnessState]),
    (cancel_only_resets_id cancelWitnessState).2.2.1 10100 50
      (by norm_num [cancelWitnessState, POSITION_LIMIT])
      (by norm_num [cancelWitnessState, POSITION_LIMIT])
      (by norm_num [LONG_HALF]) 2 Side.sell 10100 40 Lifespan.goodForDay (by decide)⟩

/-! ### Output shapes of the individual operations -/

theorem cancelAskOrder_out (p : Nat) (s : State) :
    ∀ c ∈ (cancelAskOrder p s).2,
      c = Command.cancelOrder s.mAskId ∧ s.mAskId ≠ 0 ∧ p ≠ 0 ∧ p ≠ s.mAskPrice := by
  unfold cancelAskOrder
  split
  · rename_i h
    intro c hc
    simp only [List.mem_singleton] at hc
    exact ⟨hc, h⟩
  · intro c hc
    simp at hc

theorem cancelBidOrder_out (p : Nat) (s : State) :
    ∀ c ∈ (cancelBidOrder p s).2,
      c = Command.cancelOrder s.mBidId ∧ s.mBidId ≠ 0 ∧ p ≠ 0 ∧ p ≠ s.mBidPrice := by
  unfold cancelBidOrder
  split
  · rename_i h
    intro c hc
    simp only [List.mem_singleton] at hc
    exact ⟨hc, h⟩
  · intro c hc
    simp at hc

theorem insertAskOrder_out (p v : Nat) (s : State) :
    ∀ c ∈ (insertAskOrder p v s).2,
      (∃ vol, c = Command.insertOrder s.mNextMessageId Side.sell p vol Lifespan.goodForDay) ∧
        s.mAskId = 0 := by
  simp only [insertAskOrder]
  split
  · rename_i h
    intro c hc
    simp only [List.mem_singleton] at hc
    exact ⟨⟨_, hc⟩, h.1⟩
  · intro c hc
    simp at hc

theorem insertBidOrder_out (p v : Nat) (s : State) :
    ∀ c ∈ (insertBidOrder p v s).2,
      (∃ vol, c = Command.insertOrder s.mNextMessageId Side.buy p vol Lifespan.goodForDay) ∧
        s.mBidId = 0 := by
  simp only [insertBidOrder]
  split
  · rename_i h
    intro c hc
    simp only [List.mem_singleton] at hc
    exact ⟨⟨_, hc⟩, h.1⟩
  · intro c hc
    simp at hc

theorem hedgeOrder_out (s : State) :
    ∀ c ∈ (hedgeOrder s).2, ∃ id sd pr vol, c = Command.hedgeOrder id sd pr vol := by
  unfold hedgeOrder
  split
  · intro c hc
    simp only [List.mem_singleton] at hc
    exact ⟨_, _, _, _, hc⟩
  · split
    · intro c hc
      simp only [List.mem_singleton] at hc
      exact ⟨_, _, _, _, hc⟩
    · intro c hc
      simp at hc

/-! ### Frame facts of the individual operations -/

theorem cancelAskOrder_frame (p : Nat) (s : State) :
    (cancelAskOrder p s).1.mBidId = s.mBidId ∧
    (cancelAskOrder p s).1.mBidPrice = s.mBidPrice ∧
    (cancelAskOrder p s).1.mNewBidVolume = s.mNewBidVolume ∧
    (cancelAskOrder p s).1.mAskPrice = s.mAskPrice ∧
    (cancelAskOrder p s).1.mNewAskVolume = s.mNewAskVolume := by
  unfold cancelAskOrder
  split
  · exact ⟨rfl, rfl, rfl, rfl, rfl⟩
  · exact ⟨rfl, rfl, rfl, rfl, rfl⟩

theorem insertAskOrder_frame (p v : Nat) (s : State) :
    (insertAskOrder p v s).1.mBidId = s.mBidId ∧
    (insertAskOrder p v s).1.mBidPrice = s.mBidPrice ∧
    (insertAskOrder p v s).1.mNewBidVolume = s.mNewBidVolume := by
  simp only [insertAskOrder]
  split
  · exact ⟨rfl, rfl, rfl⟩
  · exact ⟨rfl, rfl, rfl⟩

theorem cancelAskOrder_askId (p : Nat) (s : State)
    (h : (cancelAskOrder p s).1.mAskId = 0) :
    s.mAskId = 0 ∨ (p ≠ 0 ∧ p ≠ s.mAskPrice) := by
  unfold cancelAskOrder at h
  by_cases hcnd : s.mAskId ≠ 0 ∧ p ≠ 0 ∧ p ≠ s.mAskPrice
  · exact Or.inr ⟨hcnd.2.1, hcnd.2.2⟩
  · rw [if_neg hcnd] at h
    exact Or.inl h

theorem cancelBidOrder_bidId (p : Nat) (s : State)
    (h : (cancelBidOrder p s).1.mBidId = 0) :
    s.mBidId = 0 ∨ (p ≠ 0 ∧ p ≠ s.mBidPrice) := by
  unfold cancelBidOrder at h
  by_cases hcnd : s.mBidId ≠ 0 ∧ p ≠ 0 ∧ p ≠ s.mBidPrice
  · exact Or.inr ⟨hcnd.2.1, hcnd.2.2⟩
  · rw [if_neg hcnd] at h
    exact Or.inl h

/-- Every command emitted by a quoted-instrument book update is one of:
the cancel of the resting ask (only if its price moved), an ask-side insert
(only if the ask slot was free or the ask price moved), the cancel of the
resting bid (only if its price moved), a bid-side insert (only if the bid
slot was free or the bid price moved), or a hedge order. -/
theorem orderBook_future_out (s : State) (now aP bP : Nat) :
    ∀ c ∈ (orderBookMessageHandler Instrument.future now aP bP s).2,
      (c = Command.cancelOrder s.mAskId ∧ s.mAskId ≠ 0 ∧ aP ≠ 0 ∧ aP ≠ s.mAskPrice) ∨
      ((∃ id vol, c = Command.insertOrder id Side.sell aP vol Lifespan.goodForDay) ∧
        (s.mAskId = 0 ∨ (aP ≠ 0 ∧ aP ≠ s.mAskPrice))) ∨
      (c = Command.cancelOrder s.mBidId ∧ s.mBidId ≠ 0 ∧ bP ≠ 0 ∧ bP ≠ s.mBidPrice) ∨
      ((∃ id vol, c = Command.insertOrder id Side.buy bP vol Lifespan.goodForDay) ∧
        (s.mBidId = 0 ∨ (bP ≠ 0 ∧ bP ≠ s.mBidPrice))) ∨
      (∃ id sd pr vol, c = Command.hedgeOrder id sd pr vol) := by
  intro c hc
  simp only [orderBookMessageHandler, eq_self_iff_true, if_true] at hc
  set pA := cancelAskOrder aP s with hpA
  set pB := insertAskOrder aP pA.1.mNewAskVolume pA.1 with hpB
  set pC := cancelBidOrder bP pB.1 with hpC
  set pD := insertBidOrder bP pC.1.mNewBidVolume pC.1 with hpD
  set pE := hedgeOrder pD.1 with hpE
  have hbid2 : pB.1.mBidId = s.mBidId := by
    rw [hpB, (insertAskOrder_frame _ _ _).1, hpA, (cancelAskOrder_frame _ _).1]
  have hbpr2 : pB.1.mBidPrice = s.mBidPrice := by
    rw [hpB, (insertAskOrder_frame _ _ _).2.1, hpA, (cancelAskOrder_frame _ _).2.1]
  have fromA : c ∈ pA.2 →
      (c = Command.cancelOrder s.mAskId ∧ s.mAskId ≠ 0 ∧ aP ≠ 0 ∧ aP ≠ s.mAskPrice) := by
    intro h
    rw [hpA] at h
    exact cancelAskOrder_out aP s c h
  have fromB : c ∈ pB.2 →
      ((∃ id vol, c = Command.insertOrder id Side.sell aP vol Lifespan.goodForDay) ∧
        (s.mAskId = 0 ∨ (aP ≠ 0 ∧ aP ≠ s.mAskPrice))) := by
    intro h
    rw [hpB] at h
    have h1 := insertAskOrder_out aP pA.1.mNewAskVolume pA.1 c h
    obtain ⟨⟨vol, hv⟩, h0⟩ := h1
    rw [hpA] at h0
    exact ⟨⟨_, vol, hv⟩, cancelAskOrder_askId aP s h0⟩
  have fromC : c ∈ pC.2 →
      (c = Command.cancelOrder s.mBidId ∧ s.mBidId ≠ 0 ∧ bP ≠ 0 ∧ bP ≠ s.mBidPrice) := by
    intro h
    rw [hpC] at h
    have h1 := cancelBidOrder_out bP pB.1 c h
    rw [hbid2, hbpr2] at h1
    exact h1
  have fromD : c ∈ pD.2 →
      ((∃ id vol, c = Command.insertOrder id Side.buy bP vol Lifespan.goodForDay) ∧
        (s.mBidId = 0 ∨ (bP ≠ 0 ∧ bP ≠ s.mBidPrice))) := by
    intro h
    rw [hpD] at h
    have h1 := insertBidOrder_out bP pC.1.mNewBidVolume pC.1 c h
    obtain ⟨⟨vol, hv⟩, h0⟩ := h1
    rw [hpC] at h0
    have h3 := cancelBidOrder_bidId bP pB.1 h0
    rw [hbid2, hbpr2] at h3
    exact ⟨⟨_, vol, hv⟩, h3⟩
  have fromE : c ∈ pE.2 → (∃ id sd pr vol, c = Command.hedgeOrder id sd pr vol) := by
    intro h
    rw [hpE] at h
    exact hedgeOrder_out pD.1 c h
  by_cases htol : |pD.1.mPosition + pD.1.mHedgePosition| ≤ MAX_UNHEDGED_LOTS
  · rw [if_pos htol] at hc
    rcases List.mem_append.mp hc with hm | hm
    · rcases List.mem_append.mp hm with hm2 | hm2
      · rcases List.mem_append.mp hm2 with hm3 | hm3
        · exact Or.inl (fromA hm3)
        · exact Or.inr (Or.inl (fromB hm3))
      · exact Or.inr (Or.inr (Or.inl (fromC hm2)))
    · exact Or.inr (Or.inr (Or.inr (Or.inl (fromD hm))))
  · rw [if_neg htol] at hc
    by_cases htim : UNHEDGED_LOTS_TIME_LIMIT ≤ now - pD.1.mStartTime
    · rw [if_pos htim] at hc
      rcases List.mem_append.mp hc with hm | hm
      · rcases List.mem_append.mp hm with hm2 | hm2
        · rcases List.mem_append.mp hm2 with hm3 | hm3
          · rcases List.mem_append.mp hm3 with hm4 | hm4
            · exact Or.inl (fromA hm4)
            · exact Or.inr (Or.inl (fromB hm4))
          · exact Or.inr (Or.inr (Or.inl (fromC hm3)))
        · exact Or.inr (Or.inr (Or.inr (Or.inl (fromD hm2))))
      · exact Or.inr (Or.inr (Or.inr (Or.inr (fromE hm))))
    · rw [if_neg htim] at hc
      rcases List.mem_append.mp hc with hm | hm
      · rcases List.mem_append.mp hm with hm2 | hm2
        · rcases List.mem_append.mp hm2 with hm3 | hm3
          · exact Or.inl (fromA hm3)
          · exact Or.inr (Or.inl (fromB hm3))
        · exact Or.inr (Or.inr (Or.inl (fromC hm2)))
      · exact Or.inr (Or.inr (Or.inr (Or.inl (fromD hm))))

/-! ### C8: a price-unchanged book update emits nothing for that side -/

/-- C8: on a quoted-instrument book update whose new reference price of a
side equals the resting order price of that side, the handler emits neither
a cancel of that resting order nor an insert on that side. -/
theorem price_unchanged_noop (s : State) (now askPrice bidPrice : Nat) :
    (s.mAskId ≠ 0 → askPrice = s.mAskPrice → s.mBidId ≠ s.mAskId →
      ∀ c ∈ (orderBookMessageHandler Instrument.future now askPrice bidPrice s).2,
        c ≠ Command.cancelOrder s.mAskId ∧
        ∀ id p v ls, c ≠ Command.insertOrder id Side.sell p v ls) ∧
    (s.mBidId ≠ 0 → bidPrice = s.mBidPrice → s.mAskId ≠ s.mBidId →
      ∀ c ∈ (orderBookMessageHandler Instrument.future now askPrice bidPrice s).2,
        c ≠ Command.cancelOrder s.mBidId ∧
        ∀ id p v ls, c ≠ Command.insertOrder id Side.buy p v ls) := by
  constructor
  · intro h1 h2 h3 c hc
    rcases orderBook_future_out s now askPrice bidPrice c hc with
      ⟨hce, _, _, hne⟩ | ⟨⟨id, vol, hce⟩, hor⟩ | ⟨hce, hb⟩ | ⟨⟨id, vol, hce⟩, hor⟩ |
      ⟨id, sd, pr, vol, hce⟩
    · exact absurd h2 hne
    · rcases hor with h0 | ⟨_, hne⟩
      · exact absurd h0 h1
      · exact absurd h2 hne
    · subst hce
      constructor
      · intro he
        injection he with he2
        exact h3 he2
      · intro id p v ls he
        cases he
    · subst hce
      constructor
      · intro he
        cases he
      · intro id2 p v ls he
        injection he with e1 e2
        cases e2
    · subst hce
      constructor
      · intro he
        cases he
      · intro id2 p v ls he
        cases he
  · intro h1 h2 h3 c hc
    rcases orderBook_future_out s now askPrice bidPrice c hc with
      ⟨hce, ha⟩ | ⟨⟨id, vol, hce⟩, hor⟩ | ⟨hce, _, _, hne⟩ | ⟨⟨id, vol, hce⟩, hor⟩ |
      ⟨id, sd, pr, vol, hce⟩
    · subst hce
      constructor
      · intro he
        injection he with he2
        exact h3 he2
      · intro id p v ls he
        cases he
    · subst hce
      constructor
      · intro he
        cases he
      · intro id2 p v ls he
        injection he with e1 e2
        cases e2
    · exact absurd h2 hne
    · rcases hor with h0 | ⟨_, hne⟩
      · exact absurd h0 h1
      · exact absurd h2 hne
    · subst hce
      constructor
      · intro he
        cases he
      · intro id2 p v ls he
        cases he

/-- Witness for price_unchanged_noop: resting ask at 10000, book update with
the same best ask price. -/
theorem price_unchanged_noop_witness :
    cancelWitnessState.mAskId ≠ 0 ∧
    (∀ c ∈ (orderBookMessageHandler Instrument.future 0 10000 0 cancelWitnessState).2,
      c ≠ Command.cancelOrder cancelWitnessState.mAskId ∧
      ∀ id p v ls, c ≠ Command.insertOrder id Side.sell p v ls) :=
  ⟨by norm_num [cancelWitnessState],
    (price_unchanged_noop cancelWitnessState 0 10000 0).1
      (by norm_num [cancelWitnessState]) rfl (by norm_num [cancelWitnessState])⟩

/-! ### The event machine: the engine composed with a mirror of the venue

For the trace-level claims the engine is composed with a small mirror of
the venue holding the live orders of the engine, at most one per side: the
engine inserts on a side only while the slot of that side is free, and a cancel
is modelled as effective at the venue (events are delivered serially, spec
section 5, and both channels preserve order).  A trace is conformant when
every fill event fills a live order by at least one lot and at most its
remaining volume, and status fill volumes are representable in a signed
64-bit integer. -/

structure ExchOrder where
  id : Nat
  remaining : Nat
  deriving DecidableEq

structure Exch where
  ask : Option ExchOrder := none
  bid : Option ExchOrder := none
  deriving DecidableEq

/-- Remove the order if it carries the given identifier. -/
def removeIf (o : Option ExchOrder) (id : Nat) : Option ExchOrder :=
  match o with
  | some a => if a.id = id then none else some a
  | none => none

/-- Fill the order by `v` lots if it carries the given identifier. -/
def fillOrd (o : Option ExchOrder) (id v : Nat) : Option ExchOrder :=
  match o with
  | some a => if a.id = id then some ⟨a.id, a.remaining - v⟩ else some a
  | none => none

/-- Effect of an outbound engine command on the venue mirror. -/
def applyCommand (x : Exch) : Command → Exch
  | Command.insertOrder id Side.sell _ v _ => { x with ask := some ⟨id, v⟩ }
  | Command.insertOrder id Side.buy _ v _ => { x with bid := some ⟨id, v⟩ }
  | Command.cancelOrder id => { ask := removeIf x.ask id, bid := removeIf x.bid id }
  | Command.hedgeOrder _ _ _ _ => x

def applyCommands (x : Exch) (cs : List Command) : Exch := cs.foldl applyCommand x

/-- The inbound events of the engine (section 6 of the spec).  Book and
tick events carry the top-of-book prices the handler reads; the book event
also carries the clock value observed during the call. -/
inductive Ev
  | orderBook (instrument : Instrument) (now : Nat) (askPrice bidPrice : Nat)
  | tradeTicks (instrument : Instrument) (askPrice bidPrice : Nat)
  | orderFilled (id price volume : Nat)
  | orderStatus (id fillVolume remainingVolume : Nat) (fees : Int)
  | errorMessage (id : Nat)
  | hedgeFilled (id price volume : Nat)
  deriving DecidableEq

structure Sys where
  trader : State
  exch : Exch
  deriving DecidableEq

/-- One delivered event: the engine handler runs and its commands (if any)
take effect on the venue mirror; fills and terminal statuses update the
mirror accordingly (a terminal status or an error reports an order that is
dead at the venue). -/
def sysStep (sys : Sys) : Ev → Sys × List Command
  | Ev.orderBook instr now aP bP =>
      let r := orderBookMessageHandler instr now aP bP sys.trader
      (⟨r.1, applyCommands sys.exch r.2⟩, r.2)
  | Ev.tradeTicks instr aP bP =>
      let r := tradeTicksMessageHandler instr aP bP sys.trader
      (⟨r.1, applyCommands sys.exch r.2⟩, r.2)
  | Ev.orderFilled id p v =>
      let r := orderFilledMessageHandler id p v sys.trader
      (⟨r.1, { ask := fillOrd sys.exch.ask id v, bid := fillOrd sys.exch.bid id v }⟩, r.2)
  | Ev.orderStatus id f rem fees =>
      let r := orderStatusMessageHandler id f rem fees sys.trader
      (⟨r.1,
          if rem = 0 then
            { ask := removeIf sys.exch.ask id, bid := removeIf sys.exch.bid id }
          else sys.exch⟩, r.2)
  | Ev.errorMessage id =>
      let r := errorMessageHandler id sys.trader
      (⟨r.1, { ask := removeIf sys.exch.ask id, bid := removeIf sys.exch.bid id }⟩, r.2)
  | Ev.hedgeFilled id p v =>
      let r := hedgeFilledMessageHandler id p v sys.trader
      (⟨r.1, sys.exch⟩, r.2)

/-- A fill event is conformant for an order slot when the slot holds a live
order with that identifier and the fill is for at least one lot and at most
the remaining volume. -/
def fillConf (o : Option ExchOrder) (id v : Nat) : Bool :=
  match o with
  | some a => a.id == id && decide (1 ≤ v) && decide (v ≤ a.remaining)
  | none => false

/-- Venue conformance of one event in one system state. -/
def conformsB (sys : Sys) : Ev → Bool
  | Ev.orderFilled id _ v => fillConf sys.exch.ask id v || fillConf sys.exch.bid id v
  | Ev.orderStatus _ f _ _ => decide (f < LONG_HALF)
  | _ => true

def execFrom (sys : Sys) : List Ev → Sys
  | [] => sys
  | e :: rest => execFrom (sysStep sys e).1 rest

def conformantB (sys : Sys) : List Ev → Bool
  | [] => true
  | e :: rest => conformsB sys e && conformantB (sysStep sys e).1 rest

/-- The start-up system: the engine at its initial member values and no
live orders at the venue. -/
def initSys : Sys := { trader := {}, exch := {} }

theorem execFrom_append (sys : Sys) (l1 l2 : List Ev) :
    execFrom sys (l1 ++ l2) = execFrom (execFrom sys l1) l2 := by
  induction l1 generalizing sys with
  | nil => rfl
  | cons e rest ih =>
      simp only [List.cons_append, execFrom]
      exact ih _

theorem conformantB_append (sys : Sys) (l1 l2 : List Ev)
    (h : conformantB sys (l1 ++ l2) = true) : conformantB sys l1 = true := by
  induction l1 generalizing sys with
  | nil => rfl
  | cons e rest ih =>
      simp only [List.cons_append, conformantB, Bool.and_eq_true] at h ⊢
      exact ⟨h.1, ih _ h.2⟩

/-! ### Handler characterizations -/

def remOpt (o : Option ExchOrder) : Int :=
  match o with
  | some a => (a.remaining : Int)
  | none => 0

theorem remOpt_nonneg (o : Option ExchOrder) : 0 ≤ remOpt o := by
  cases o with
  | none => exact le_refl 0
  | some a => exact Int.natCast_nonneg a.remaining

theorem remOpt_removeIf_le (o : Option ExchOrder) (id : Nat) :
    remOpt (removeIf o id) ≤ remOpt o := by
  cases o with
  | none => exact le_refl 0
  | some a =>
      simp only [removeIf]
      split
      · exact Int.natCast_nonneg a.remaining
      · exact le_refl _

theorem orderFilled_eq_ask (id p v : Nat) (t : State) (hmem : id ∈ t.mAsks) :
    orderFilledMessageHandler id p v t =
      ({ t with
          mPosition := t.mPosition - toLong v
          mNewBidVolume := toULong (newBidVolumeCode (t.mPosition - toLong v))
          mNewAskVolume := toULong ((t.mPosition - toLong v) +
            (toULong (newBidVolumeCode (t.mPosition - toLong v)) : Int)) }, []) := by
  simp [orderFilledMessageHandler, hmem]

theorem orderFilled_eq_bid (id p v : Nat) (t : State) (hnin : id ∉ t.mAsks)
    (hmem : id ∈ t.mBids) :
    orderFilledMessageHandler id p v t =
      ({ t with
          mPosition := t.mPosition + toLong v
          mNewBidVolume := toULong (newBidVolumeCode (t.mPosition + toLong v))
          mNewAskVolume := toULong ((t.mPosition + toLong v) +
            (toULong (newBidVolumeCode (t.mPosition + toLong v)) : Int)) }, []) := by
  simp [orderFilledMessageHandler, hnin, hmem]

theorem orderFilled_eq_none (id p v : Nat) (t : State) (h1 : id ∉ t.mAsks)
    (h2 : id ∉ t.mBids) :
    orderFilledMessageHandler id p v t =
      ({ t with
          mNewBidVolume := toULong (newBidVolumeCode t.mPosition)
          mNewAskVolume := toULong (t.mPosition +
            (toULong (newBidVolumeCode t.mPosition) : Int)) }, []) := by
  simp [orderFilledMessageHandler, h1, h2]

theorem orderStatus_terminal_askSlot (id f : Nat) (fees : Int) (t : State)
    (h : id = t.mAskId) :
    orderStatusMessageHandler id f 0 fees t =
      ({ t with
          mAskId := 0
          mAskVolume := 0
          mAsks := t.mAsks.erase id
          mBids := t.mBids.erase id }, []) := by
  subst h
  simp [orderStatusMessageHandler]

theorem orderStatus_terminal_bidSlot (id f : Nat) (fees : Int) (t : State)
    (h1 : id ≠ t.mAskId) (h2 : id = t.mBidId) :
    orderStatusMessageHandler id f 0 fees t =
      ({ t with
          mBidId := 0
          mBidVolume := 0
          mAsks := t.mAsks.erase id
          mBids := t.mBids.erase id }, []) := by
  subst h2
  simp [orderStatusMessageHandler, h1]

theorem orderStatus_terminal_none (id f : Nat) (fees : Int) (t : State)
    (h1 : id ≠ t.mAskId) (h2 : id ≠ t.mBidId) :
    orderStatusMessageHandler id f 0 fees t =
      ({ t with mAsks := t.mAsks.erase id, mBids := t.mBids.erase id }, []) := by
  simp [orderStatusMessageHandler, h1, h2]

theorem orderStatus_partial_askSlot (id f rem : Nat) (fees : Int) (t : State)
    (hrem : rem ≠ 0) (hf : 0 < f) (h : id = t.mAskId) :
    orderStatusMessageHandler id f rem fees t =
      ({ t with
          mAskVolume :=
            toULong (max (toLong (toULong ((t.mAskVolume : Int) - (f : Int)))) 0) }, []) := by
  subst h
  simp [orderStatusMessageHandler, hrem, hf]

theorem orderStatus_partial_bidSlot (id f rem : Nat) (fees : Int) (t : State)
    (hrem : rem ≠ 0) (hf : 0 < f) (h1 : id ≠ t.mAskId) (h2 : id = t.mBidId) :
    orderStatusMessageHandler id f rem fees t =
      ({ t with
          mBidVolume :=
            toULong (max (toLong (toULong ((t.mBidVolume : Int) - (f : Int)))) 0) }, []) := by
  subst h2
  simp [orderStatusMessageHandler, hrem, hf, h1]

theorem orderStatus_partial_none (id f rem : Nat) (fees : Int) (t : State)
    (hrem : rem ≠ 0) (h1 : id ≠ t.mAskId) (h2 : id ≠ t.mBidId) :
    orderStatusMessageHandler id f rem fees t = (t, []) := by
  simp [orderStatusMessageHandler, hrem, h1, h2]

theorem orderStatus_nofill (id f rem : Nat) (fees : Int) (t : State)
    (hrem : rem ≠ 0) (hf : ¬ 0 < f) :
    orderStatusMessageHandler id f rem fees t = (t, []) := by
  simp [orderStatusMessageHandler, hrem, hf]

/-! ### The reachable-state invariant -/

/-- The inductive invariant of the composed system: the next-quote volumes
are consistent with the position, slot identifiers are registered in the
live-order sets, the sets are disjoint and below the identifier counter,
the venue mirror holds only the slot order of each side, and the tracked
volume of each side plus the live remaining volume of that side stays
within the position limit. -/
structure Inv (sys : Sys) : Prop where
  newBid_eq : sys.trader.mNewBidVolume = toULong (newBidVolumeCode sys.trader.mPosition)
  newAsk_eq : sys.trader.mNewAskVolume =
    toULong (sys.trader.mPosition + (sys.trader.mNewBidVolume : Int))
  askId_mem : sys.trader.mAskId ≠ 0 → sys.trader.mAskId ∈ sys.trader.mAsks
  bidId_mem : sys.trader.mBidId ≠ 0 → sys.trader.mBidId ∈ sys.trader.mBids
  disj : ∀ id ∈ sys.trader.mAsks, id ∉ sys.trader.mBids
  asks_lt : ∀ id ∈ sys.trader.mAsks, id < sys.trader.mNextMessageId
  bids_lt : ∀ id ∈ sys.trader.mBids, id < sys.trader.mNextMessageId
  next_pos : 1 ≤ sys.trader.mNextMessageId
  exch_ask : ∀ o, sys.exch.ask = some o → o.id = sys.trader.mAskId ∧ o.id ≠ 0
  exch_bid : ∀ o, sys.exch.bid = some o → o.id = sys.trader.mBidId ∧ o.id ≠ 0
  hA : (sys.trader.mAskVolume : Int) + remOpt sys.exch.ask ≤
    sys.trader.mPosition + POSITION_LIMIT
  hB : (sys.trader.mBidVolume : Int) + remOpt sys.exch.bid ≤
    POSITION_LIMIT - sys.trader.mPosition

theorem Inv.pos_lb {sys : Sys} (h : Inv sys) :
    -POSITION_LIMIT ≤ sys.trader.mPosition := by
  have h1 := h.hA
  have h2 := Int.natCast_nonneg sys.trader.mAskVolume
  have h3 := remOpt_nonneg sys.exch.ask
  omega

theorem Inv.pos_ub {sys : Sys} (h : Inv sys) :
    sys.trader.mPosition ≤ POSITION_LIMIT := by
  have h1 := h.hB
  have h2 := Int.natCast_nonneg sys.trader.mBidVolume
  have h3 := remOpt_nonneg sys.exch.bid
  omega

theorem inv_init : Inv initSys := by
  refine ⟨?_, ?_, ?_, ?_, ?_, ?_, ?_, ?_, ?_, ?_, ?_, ?_⟩
  · decide
  · decide
  · intro h
    exact absurd rfl h
  · intro h
    exact absurd rfl h
  · intro id h
    simp [initSys] at h
  · intro id h
    simp [initSys] at h
  · intro id h
    simp [initSys] at h
  · decide
  · intro o h
    simp [initSys] at h
  · intro o h
    simp [initSys] at h
  · decide
  · decide

/-! ### Invariant preservation, operation by operation -/

theorem newBidVolumeCode_ediv (pos : Int) (h : pos ≤ POSITION_LIMIT) :
    newBidVolumeCode pos = (POSITION_LIMIT - pos) / 2 := by
  have h0 : (0 : Int) ≤ POSITION_LIMIT - pos := by omega
  unfold newBidVolumeCode
  split
  · exact Int.tdiv_eq_ediv h0 (by norm_num)
  · exact Int.tdiv_eq_ediv h0 (by norm_num)

theorem inv_cancelAsk (p : Nat) (sys : Sys) (h : Inv sys) :
    Inv ⟨(cancelAskOrder p sys.trader).1,
      applyCommands sys.exch (cancelAskOrder p sys.trader).2⟩ := by
  unfold cancelAskOrder
  split
  · refine ⟨h.newBid_eq, h.newAsk_eq, ?_, h.bidId_mem, h.disj, h.asks_lt, h.bids_lt,
      h.next_pos, ?_, ?_, ?_, ?_⟩
    · intro h0
      exact absurd rfl h0
    · intro o ho
      cases hask : sys.exch.ask with
      | none =>
          rw [show applyCommands sys.exch [Command.cancelOrder sys.trader.mAskId] =
            { ask := removeIf sys.exch.ask sys.trader.mAskId,
              bid := removeIf sys.exch.bid sys.trader.mAskId } from rfl] at ho
          simp only [removeIf, hask] at ho
          cases ho
      | some a =>
          rw [show applyCommands sys.exch [Command.cancelOrder sys.trader.mAskId] =
            { ask := removeIf sys.exch.ask sys.trader.mAskId,
              bid := removeIf sys.exch.bid sys.trader.mAskId } from rfl] at ho
          simp only [removeIf, hask] at ho
          have ha := h.exch_ask a hask
          rw [if_pos ha.1] at ho
          cases ho
    · intro o ho
      rw [show applyCommands sys.exch [Command.cancelOrder sys.trader.mAskId] =
        { ask := removeIf sys.exch.ask sys.trader.mAskId,
          bid := removeIf sys.exch.bid sys.trader.mAskId } from rfl] at ho
      cases hbid : sys.exch.bid with
      | none =>
          simp only [removeIf, hbid] at ho
          cases ho
      | some b =>
          simp only [removeIf, hbid] at ho
          by_cases hid : b.id = sys.trader.mAskId
          · rw [if_pos hid] at ho
            cases ho
          · rw [if_neg hid] at ho
            cases ho
            exact h.exch_bid _ hbid
    · have h1 := h.hA
      have h2 := remOpt_removeIf_le sys.exch.ask sys.trader.mAskId
      show (sys.trader.mAskVolume : Int) +
        remOpt (removeIf sys.exch.ask sys.trader.mAskId) ≤
          sys.trader.mPosition + POSITION_LIMIT
      omega
    · have h1 := h.hB
      have h2 := remOpt_removeIf_le sys.exch.bid sys.trader.mAskId
      show (sys.trader.mBidVolume : Int) +
        remOpt (removeIf sys.exch.bid sys.trader.mAskId) ≤
          POSITION_LIMIT - sys.trader.mPosition
      omega
  · exact h

theorem inv_cancelBid (p : Nat) (sys : Sys) (h : Inv sys) :
    Inv ⟨(cancelBidOrder p sys.trader).1,
      applyCommands sys.exch (cancelBidOrder p sys.trader).2⟩ := by
  unfold cancelBidOrder
  split
  · refine ⟨h.newBid_eq, h.newAsk_eq, h.askId_mem, ?_, h.disj, h.asks_lt, h.bids_lt,
      h.next_pos, ?_, ?_, ?_, ?_⟩
    · intro h0
      exact absurd rfl h0
    · intro o ho
      rw [show applyCommands sys.exch [Command.cancelOrder sys.trader.mBidId] =
        { ask := removeIf sys.exch.ask sys.trader.mBidId,
          bid := removeIf sys.exch.bid sys.trader.mBidId } from rfl] at ho
      cases hask : sys.exch.ask with
      | none =>
          simp only [removeIf, hask] at ho
          cases ho
      | some a =>
          simp only [removeIf, hask] at ho
          by_cases hid : a.id = sys.trader.mBidId
          · rw [if_pos hid] at ho
            cases ho
          · rw [if_neg hid] at ho
            cases ho
            exact h.exch_ask _ hask
    · intro o ho
      rw [show applyCommands sys.exch [Command.cancelOrder sys.trader.mBidId] =
        { ask := removeIf sys.exch.ask sys.trader.mBidId,
          bid := removeIf sys.exch.bid sys.trader.mBidId } from rfl] at ho
      cases hbid : sys.exch.bid with
      | none =>
          simp only [removeIf, hbid] at ho
          cases ho
      | some b =>
          simp only [removeIf, hbid] at ho
          have hb := h.exch_bid b hbid
          rw [if_pos hb.1] at ho
          cases ho
    · have h1 := h.hA
      have h2 := remOpt_removeIf_le sys.exch.ask sys.trader.mBidId
      show (sys.trader.mAskVolume : Int) +
        remOpt (removeIf sys.exch.ask sys.trader.mBidId) ≤
          sys.trader.mPosition + POSITION_LIMIT
      omega
    · have h1 := h.hB
      have h2 := remOpt_removeIf_le sys.exch.bid sys.trader.mBidId
      show (sys.trader.mBidVolume : Int) +
        remOpt (removeIf sys.exch.bid sys.trader.mBidId) ≤
          POSITION_LIMIT - sys.trader.mPosition
      omega
  · exact h

theorem inv_startTime (n : Nat) (t : State) (x : Exch) (h : Inv ⟨t, x⟩) :
    Inv ⟨{ t with mStartTime := n }, x⟩ := by
  exact ⟨h.newBid_eq, h.newAsk_eq, h.askId_mem, h.bidId_mem, h.disj, h.asks_lt,
    h.bids_lt, h.next_pos, h.exch_ask, h.exch_bid, h.hA, h.hB⟩

theorem inv_hedge (sys : Sys) (h : Inv sys) :
    Inv ⟨(hedgeOrder sys.trader).1, applyCommands sys.exch (hedgeOrder sys.trader).2⟩ := by
  unfold hedgeOrder
  split
  · refine ⟨h.newBid_eq, h.newAsk_eq, h.askId_mem, h.bidId_mem, h.disj, ?_, ?_, ?_,
      h.exch_ask, h.exch_bid, h.hA, h.hB⟩
    · intro id hid
      exact lt_trans (h.asks_lt id hid) (Nat.lt_succ_self _)
    · intro id hid
      exact lt_trans (h.bids_lt id hid) (Nat.lt_succ_self _)
    · exact le_trans h.next_pos (Nat.le_succ _)
  · split
    · refine ⟨h.newBid_eq, h.newAsk_eq, h.askId_mem, h.bidId_mem, h.disj, ?_, ?_, ?_,
        h.exch_ask, h.exch_bid, h.hA, h.hB⟩
      · intro id hid
        exact lt_trans (h.asks_lt id hid) (Nat.lt_succ_self _)
      · intro id hid
        exact lt_trans (h.bids_lt id hid) (Nat.lt_succ_self _)
      · exact le_trans h.next_pos (Nat.le_succ _)
    · exact h

/-- Consequences of the next-quote-volume consistency: the requested ask
volume satisfies `2 * requested ≤ position + POSITION_LIMIT` and the
requested bid volume satisfies `2 * requested ≤ POSITION_LIMIT - position`,
so a freshly inserted order of either side can fully fill without pushing
the position past the limit. -/
theorem requested_volumes (sys : Sys) (h : Inv sys) :
    (sys.trader.mNewBidVolume : Int) = newBidVolumeCode sys.trader.mPosition ∧
    (sys.trader.mNewAskVolume : Int) =
      sys.trader.mPosition + (sys.trader.mNewBidVolume : Int) ∧
    2 * (sys.trader.mNewAskVolume : Int) ≤ sys.trader.mPosition + POSITION_LIMIT ∧
    2 * (sys.trader.mNewBidVolume : Int) ≤ POSITION_LIMIT - sys.trader.mPosition ∧
    sys.trader.mNewAskVolume < LONG_HALF ∧ sys.trader.mNewBidVolume < LONG_HALF := by
  have hPL : POSITION_LIMIT = (100 : Int) := rfl
  have hPu := h.pos_ub
  have hPl := h.pos_lb
  rw [hPL] at hPu hPl
  have hq0 : newBidVolumeCode sys.trader.mPosition =
      ((100 : Int) - sys.trader.mPosition) / 2 := by
    rw [newBidVolumeCode_ediv _ h.pos_ub, hPL]
  have hq : 0 ≤ newBidVolumeCode sys.trader.mPosition ∧
      2 * newBidVolumeCode sys.trader.mPosition ≤ 100 - sys.trader.mPosition ∧
      100 - sys.trader.mPosition - 1 ≤ 2 * newBidVolumeCode sys.trader.mPosition := by
    rw [hq0]
    omega
  have hnb : (sys.trader.mNewBidVolume : Int) = newBidVolumeCode sys.trader.mPosition := by
    rw [h.newBid_eq]
    refine toULong_of_range hq.1 ?_
    rw [ULONG_MOD_int]
    omega
  have hreq : (sys.trader.mNewAskVolume : Int) =
      sys.trader.mPosition + (sys.trader.mNewBidVolume : Int) := by
    rw [h.newAsk_eq]
    refine toULong_of_range ?_ ?_
    · rw [hnb]
      omega
    · rw [hnb, ULONG_MOD_int]
      omega
  refine ⟨hnb, hreq, ?_, ?_, ?_, ?_⟩
  · rw [hPL, hreq, hnb]
    omega
  · rw [hPL, hnb]
    omega
  · have : (sys.trader.mNewAskVolume : Int) < (LONG_HALF : Int) := by
      rw [hreq, hnb, LONG_HALF_int]
      omega
    exact_mod_cast this
  · have : (sys.trader.mNewBidVolume : Int) < (LONG_HALF : Int) := by
      rw [hnb, LONG_HALF_int]
      omega
    exact_mod_cast this

theorem inv_insertAsk (p : Nat) (sys : Sys) (h : Inv sys) :
    Inv ⟨(insertAskOrder p sys.trader.mNewAskVolume sys.trader).1,
      applyCommands sys.exch (insertAskOrder p sys.trader.mNewAskVolume sys.trader).2⟩ := by
  have hAv : (sys.trader.mAskVolume : Int) ≤ sys.trader.mPosition + POSITION_LIMIT := by
    have h1 := h.hA
    have h2 := remOpt_nonneg sys.exch.ask
    omega
  obtain ⟨hnb, hreq, hreq2, hreqb2, hreqLH, hnbLH⟩ := requested_volumes sys h
  rw [insertAskOrder_spec sys.trader p sys.trader.mNewAskVolume h.pos_ub hAv hreqLH]
  by_cases hcnd : sys.trader.mAskId = 0 ∧ p ≠ 0 ∧
      0 < min (sys.trader.mPosition + POSITION_LIMIT - (sys.trader.mAskVolume : Int))
        ((sys.trader.mNewAskVolume : Nat) : Int)
  · rw [if_pos hcnd]
    have hM0 : (0 : Int) ≤
        min (sys.trader.mPosition + POSITION_LIMIT - (sys.trader.mAskVolume : Int))
          ((sys.trader.mNewAskVolume : Nat) : Int) := le_of_lt hcnd.2.2
    refine ⟨h.newBid_eq, h.newAsk_eq, ?_, h.bidId_mem, ?_, ?_, ?_, ?_, ?_, ?_, ?_, h.hB⟩
    · intro _
      exact Finset.mem_insert_self _ _
    · intro id hid
      rcases Finset.mem_insert.mp hid with hid | hid
      · subst hid
        intro hmem
        exact absurd (h.bids_lt _ hmem) (lt_irrefl _)
      · exact h.disj id hid
    · intro id hid
      rcases Finset.mem_insert.mp hid with hid | hid
      · subst hid
        exact Nat.lt_succ_self _
      · exact lt_trans (h.asks_lt id hid) (Nat.lt_succ_self _)
    · intro id hid
      exact lt_trans (h.bids_lt id hid) (Nat.lt_succ_self _)
    · exact le_trans h.next_pos (Nat.le_succ _)
    · intro o ho
      cases ho
      have := h.next_pos
      refine ⟨rfl, ?_⟩
      show sys.trader.mNextMessageId ≠ 0
      omega
    · intro o ho
      have := h.exch_bid o ho
      exact this
    · show ((min (sys.trader.mPosition + POSITION_LIMIT - (sys.trader.mAskVolume : Int))
          ((sys.trader.mNewAskVolume : Nat) : Int)).toNat : Int) +
        remOpt (some ⟨sys.trader.mNextMessageId,
          (min (sys.trader.mPosition + POSITION_LIMIT - (sys.trader.mAskVolume : Int))
            ((sys.trader.mNewAskVolume : Nat) : Int)).toNat⟩) ≤
        sys.trader.mPosition + POSITION_LIMIT
      show ((min (sys.trader.mPosition + POSITION_LIMIT - (sys.trader.mAskVolume : Int))
          ((sys.trader.mNewAskVolume : Nat) : Int)).toNat : Int) +
        ((min (sys.trader.mPosition + POSITION_LIMIT - (sys.trader.mAskVolume : Int))
          ((sys.trader.mNewAskVolume : Nat) : Int)).toNat : Int) ≤
        sys.trader.mPosition + POSITION_LIMIT
      have hMle : min (sys.trader.mPosition + POSITION_LIMIT - (sys.trader.mAskVolume : Int))
          ((sys.trader.mNewAskVolume : Nat) : Int) ≤
          ((sys.trader.mNewAskVolume : Nat) : Int) := min_le_right _ _
      have hMeq : ((min (sys.trader.mPosition + POSITION_LIMIT -
          (sys.trader.mAskVolume : Int)) ((sys.trader.mNewAskVolume : Nat) : Int)).toNat :
            Int) =
          min (sys.trader.mPosition + POSITION_LIMIT - (sys.trader.mAskVolume : Int))
            ((sys.trader.mNewAskVolume : Nat) : Int) := Int.toNat_of_nonneg hM0
      rw [hMeq]
      linarith [hMle, hreq2]
  · rw [if_neg hcnd]
    exact h

theorem inv_insertBid (p : Nat) (sys : Sys) (h : Inv sys) :
    Inv ⟨(insertBidOrder p sys.trader.mNewBidVolume sys.trader).1,
      applyCommands sys.exch (insertBidOrder p sys.trader.mNewBidVolume sys.trader).2⟩ := by
  have hBv : (sys.trader.mBidVolume : Int) ≤ POSITION_LIMIT - sys.trader.mPosition := by
    have h1 := h.hB
    have h2 := remOpt_nonneg sys.exch.bid
    omega
  obtain ⟨hnb, hreq, hreq2, hreqb2, hreqLH, hnbLH⟩ := requested_volumes sys h
  rw [insertBidOrder_spec sys.trader p sys.trader.mNewBidVolume h.pos_lb hBv hnbLH]
  by_cases hcnd : sys.trader.mBidId = 0 ∧ p ≠ 0 ∧
      0 < min (POSITION_LIMIT - sys.trader.mPosition - (sys.trader.mBidVolume : Int))
        ((sys.trader.mNewBidVolume : Nat) : Int)
  · rw [if_pos hcnd]
    have hM0 : (0 : Int) ≤
        min (POSITION_LIMIT - sys.trader.mPosition - (sys.trader.mBidVolume : Int))
          ((sys.trader.mNewBidVolume : Nat) : Int) := le_of_lt hcnd.2.2
    refine ⟨h.newBid_eq, h.newAsk_eq, h.askId_mem, ?_, ?_, ?_, ?_, ?_, ?_, ?_, h.hA, ?_⟩
    · intro _
      exact Finset.mem_insert_self _ _
    · intro id hid hmem
      rcases Finset.mem_insert.mp hmem with hm | hm
      · subst hm
        exact absurd (h.asks_lt _ hid) (lt_irrefl _)
      · exact h.disj id hid hm
    · intro id hid
      exact lt_trans (h.asks_lt id hid) (Nat.lt_succ_self _)
    · intro id hid
      rcases Finset.mem_insert.mp hid with hid | hid
      · subst hid
        exact Nat.lt_succ_self _
      · exact lt_trans (h.bids_lt id hid) (Nat.lt_succ_self _)
    · exact le_trans h.next_pos (Nat.le_succ _)
    · intro o ho
      have := h.exch_ask o ho
      exact this
    · intro o ho
      cases ho
      have := h.next_pos
      refine ⟨rfl, ?_⟩
      show sys.trader.mNextMessageId ≠ 0
      omega
    · show ((min (POSITION_LIMIT - sys.trader.mPosition - (sys.trader.mBidVolume : Int))
          ((sys.trader.mNewBidVolume : Nat) : Int)).toNat : Int) +
        ((min (POSITION_LIMIT - sys.trader.mPosition - (sys.trader.mBidVolume : Int))
          ((sys.trader.mNewBidVolume : Nat) : Int)).toNat : Int) ≤
        POSITION_LIMIT - sys.trader.mPosition
      have hMle : min (POSITION_LIMIT - sys.trader.mPosition - (sys.trader.mBidVolume : Int))
          ((sys.trader.mNewBidVolume : Nat) : Int) ≤
          ((sys.trader.mNewBidVolume : Nat) : Int) := min_le_right _ _
      have hMeq : ((min (POSITION_LIMIT - sys.trader.mPosition -
          (sys.trader.mBidVolume : Int)) ((sys.trader.mNewBidVolume : Nat) : Int)).toNat :
            Int) =
          min (POSITION_LIMIT - sys.trader.mPosition - (sys.trader.mBidVolume : Int))
            ((sys.trader.mNewBidVolume : Nat) : Int) := Int.toNat_of_nonneg hM0
      rw [hMeq]
      linarith [hMle, hreqb2]
  · rw [if_neg hcnd]
    exact h

theorem remOpt_fillOrd_le (o : Option ExchOrder) (id v : Nat) :
    remOpt (fillOrd o id v) ≤ remOpt o := by
  cases o with
  | none => exact le_refl 0
  | some a =>
      simp only [fillOrd]
      split
      · show ((a.remaining - v : Nat) : Int) ≤ (a.remaining : Int)
        exact_mod_cast Nat.sub_le _ _
      · exact le_refl _

theorem inv_fill (id p v : Nat) (sys : Sys) (h : Inv sys)
    (hc : conformsB sys (Ev.orderFilled id p v) = true) :
    Inv (sysStep sys (Ev.orderFilled id p v)).1 := by
  have hPL : POSITION_LIMIT = (100 : Int) := rfl
  simp only [conformsB, Bool.or_eq_true] at hc
  simp only [sysStep]
  rcases hc with hc | hc
  · -- fill of the live ask order
    cases hask : sys.exch.ask with
    | none =>
        rw [hask] at hc
        simp [fillConf] at hc
    | some a =>
        rw [hask] at hc
        simp only [fillConf, Bool.and_eq_true, beq_iff_eq, decide_eq_true_eq] at hc
        obtain ⟨⟨hid, hv1⟩, hv2⟩ := hc
        have hao := h.exch_ask a hask
        have hidA : id = sys.trader.mAskId := by rw [← hid, hao.1]
        have hid0 : id ≠ 0 := by rw [← hid]; exact hao.2
        have hidm : id ∈ sys.trader.mAsks := by
          rw [hidA]
          exact h.askId_mem (by rw [← hidA]; exact hid0)
        have hrA : remOpt sys.exch.ask = (a.remaining : Int) := by rw [hask]; rfl
        have hvLH : v < LONG_HALF := by
          have h1 := h.hA
          have h2 := h.pos_ub
          rw [hrA, hPL] at h1
          rw [hPL] at h2
          have h3 : (v : Int) ≤ (a.remaining : Int) := by exact_mod_cast hv2
          have h4 : (v : Int) < (LONG_HALF : Int) := by
            rw [LONG_HALF_int]
            have h5 := Int.natCast_nonneg sys.trader.mAskVolume
            omega
          exact_mod_cast h4
        have hsm : toLong v = (v : Int) := toLong_of_small hvLH
        rw [orderFilled_eq_ask id p v sys.trader hidm]
        refine ⟨rfl, rfl, h.askId_mem, h.bidId_mem, h.disj, h.asks_lt, h.bids_lt,
          h.next_pos, ?_, ?_, ?_, ?_⟩
        · intro o ho
          show o.id = sys.trader.mAskId ∧ o.id ≠ 0
          simp only [fillOrd] at ho
          rw [if_pos hid] at ho
          cases ho
          exact hao
        · intro o ho
          show o.id = sys.trader.mBidId ∧ o.id ≠ 0
          cases hbid : sys.exch.bid with
          | none =>
              rw [hbid] at ho
              simp only [fillOrd] at ho
              cases ho
          | some b =>
              rw [hbid] at ho
              simp only [fillOrd] at ho
              have hbo := h.exch_bid b hbid
              have hbne : b.id ≠ id := by
                intro hbeq
                have hBidA : sys.trader.mBidId = sys.trader.mAskId := by
                  rw [← hbo.1, hbeq, hidA]
                have hBid0 : sys.trader.mBidId ≠ 0 := by
                  rw [hBidA, ← hidA]; exact hid0
                have hmemB := h.bidId_mem hBid0
                have hmemA := h.askId_mem (by rw [← hidA]; exact hid0)
                exact h.disj _ hmemA (by rw [← hBidA]; exact hmemB)
              rw [if_neg hbne] at ho
              cases ho
              exact hbo
        · show (sys.trader.mAskVolume : Int) + remOpt (fillOrd (some a) id v) ≤
            sys.trader.mPosition - toLong v + POSITION_LIMIT
          simp only [fillOrd]
          rw [if_pos hid]
          show (sys.trader.mAskVolume : Int) + ((a.remaining - v : Nat) : Int) ≤
            sys.trader.mPosition - toLong v + POSITION_LIMIT
          have h1 := h.hA
          rw [hrA] at h1
          have h3 : ((a.remaining - v : Nat) : Int) = (a.remaining : Int) - (v : Int) := by
            omega
          rw [h3, hsm]
          omega
        · show (sys.trader.mBidVolume : Int) + remOpt (fillOrd sys.exch.bid id v) ≤
            POSITION_LIMIT - (sys.trader.mPosition - toLong v)
          have h1 := h.hB
          have h2 := remOpt_fillOrd_le sys.exch.bid id v
          rw [hsm]
          have h4 : (0 : Int) ≤ (v : Int) := Int.natCast_nonneg v
          omega
  · -- fill of the live bid order
    cases hbid : sys.exch.bid with
    | none =>
        rw [hbid] at hc
        simp [fillConf] at hc
    | some b =>
        rw [hbid] at hc
        simp only [fillConf, Bool.and_eq_true, beq_iff_eq, decide_eq_true_eq] at hc
        obtain ⟨⟨hid, hv1⟩, hv2⟩ := hc
        have hbo := h.exch_bid b hbid
        have hidB : id = sys.trader.mBidId := by rw [← hid, hbo.1]
        have hid0 : id ≠ 0 := by rw [← hid]; exact hbo.2
        have hidm : id ∈ sys.trader.mBids := by
          rw [hidB]
          exact h.bidId_mem (by rw [← hidB]; exact hid0)
        have hnin : id ∉ sys.trader.mAsks := by
          intro hmem
          exact h.disj id hmem hidm
        have hrB : remOpt sys.exch.bid = (b.remaining : Int) := by rw [hbid]; rfl
        have hvLH : v < LONG_HALF := by
          have h1 := h.hB
          have h2 := h.pos_lb
          rw [hrB, hPL] at h1
          rw [hPL] at h2
          have h3 : (v : Int) ≤ (b.remaining : Int) := by exact_mod_cast hv2
          have h4 : (v : Int) < (LONG_HALF : Int) := by
            rw [LONG_HALF_int]
            have h5 := Int.natCast_nonneg sys.trader.mBidVolume
            omega
          exact_mod_cast h4
        have hsm : toLong v = (v : Int) := toLong_of_small hvLH
        rw [orderFilled_eq_bid id p v sys.trader hnin hidm]
        refine ⟨rfl, rfl, h.askId_mem, h.bidId_mem, h.disj, h.asks_lt, h.bids_lt,
          h.next_pos, ?_, ?_, ?_, ?_⟩
        · intro o ho
          show o.id = sys.trader.mAskId ∧ o.id ≠ 0
          cases hask : sys.exch.ask with
          | none =>
              rw [hask] at ho
              simp only [fillOrd] at ho
              cases ho
          | some a =>
              rw [hask] at ho
              simp only [fillOrd] at ho
              have hao := h.exch_ask a hask
              have hane : a.id ≠ id := by
                intro haeq
                have hAskB : sys.trader.mAskId = sys.trader.mBidId := by
                  rw [← hao.1, haeq, hidB]
                have hAsk0 : sys.trader.mAskId ≠ 0 := by
                  rw [hAskB, ← hidB]; exact hid0
                have hmemA := h.askId_mem hAsk0
                exact h.disj _ hmemA (by rw [hAskB, ← hidB]; exact hidm)
              rw [if_neg hane] at ho
              cases ho
              exact hao
        · intro o ho
          show o.id = sys.trader.mBidId ∧ o.id ≠ 0
          simp only [fillOrd] at ho
          rw [if_pos hid] at ho
          cases ho
          exact hbo
        · show (sys.trader.mAskVolume : Int) + remOpt (fillOrd sys.exch.ask id v) ≤
            sys.trader.mPosition + toLong v + POSITION_LIMIT
          have h1 := h.hA
          have h2 := remOpt_fillOrd_le sys.exch.ask id v
          rw [hsm]
          have h4 : (0 : Int) ≤ (v : Int) := Int.natCast_nonneg v
          omega
        · show (sys.trader.mBidVolume : Int) + remOpt (fillOrd (some b) id v) ≤
            POSITION_LIMIT - (sys.trader.mPosition + toLong v)
          simp only [fillOrd]
          rw [if_pos hid]
          show (sys.trader.mBidVolume : Int) + ((b.remaining - v : Nat) : Int) ≤
            POSITION_LIMIT - (sys.trader.mPosition + toLong v)
          have h1 := h.hB
          rw [hrB] at h1
          have h3 : ((b.remaining - v : Nat) : Int) = (b.remaining : Int) - (v : Int) := by
            omega
          rw [h3, hsm]
          omega

theorem inv_statusTerminalCore (id f : Nat) (fees : Int) (sys : Sys) (h : Inv sys) :
    Inv ⟨(orderStatusMessageHandler id f 0 fees sys.trader).1,
      { ask := removeIf sys.exch.ask id, bid := removeIf sys.exch.bid id }⟩ := by
  by_cases h1 : id = sys.trader.mAskId
  · rw [orderStatus_terminal_askSlot id f fees sys.trader h1]
    refine ⟨h.newBid_eq, h.newAsk_eq, ?_, ?_, ?_, ?_, ?_, h.next_pos, ?_, ?_, ?_, ?_⟩
    · intro h0
      exact absurd rfl h0
    · intro h0
      show sys.trader.mBidId ∈ sys.trader.mBids.erase id
      have hmemB := h.bidId_mem h0
      refine Finset.mem_erase.mpr ⟨?_, hmemB⟩
      intro heq
      have hA0 : sys.trader.mAskId ≠ 0 := by rw [← h1, ← heq]; exact h0
      have hmemA := h.askId_mem hA0
      exact h.disj _ hmemA (by rw [← h1, ← heq]; exact hmemB)
    · intro j hj hj2
      have hj3 := Finset.mem_of_mem_erase hj
      have hj4 := Finset.mem_of_mem_erase hj2
      exact h.disj j hj3 hj4
    · intro j hj
      exact h.asks_lt j (Finset.mem_of_mem_erase hj)
    · intro j hj
      exact h.bids_lt j (Finset.mem_of_mem_erase hj)
    · intro o ho
      show o.id = 0 ∧ o.id ≠ 0
      cases hask : sys.exch.ask with
      | none =>
          rw [hask] at ho
          simp only [removeIf] at ho
          cases ho
      | some a =>
          rw [hask] at ho
          simp only [removeIf] at ho
          have hao := h.exch_ask a hask
          rw [if_pos (by rw [hao.1, h1])] at ho
          cases ho
    · intro o ho
      show o.id = sys.trader.mBidId ∧ o.id ≠ 0
      cases hbid : sys.exch.bid with
      | none =>
          rw [hbid] at ho
          simp only [removeIf] at ho
          cases ho
      | some b =>
          rw [hbid] at ho
          simp only [removeIf] at ho
          by_cases hbe : b.id = id
          · rw [if_pos hbe] at ho
            cases ho
          · rw [if_neg hbe] at ho
            cases ho
            exact h.exch_bid _ hbid
    · show ((0 : Nat) : Int) + remOpt (removeIf sys.exch.ask id) ≤
        sys.trader.mPosition + POSITION_LIMIT
      have hz : remOpt (removeIf sys.exch.ask id) = 0 := by
        cases hask : sys.exch.ask with
        | none => rfl
        | some a =>
            have hao := h.exch_ask a hask
            simp only [removeIf]
            rw [if_pos (by rw [hao.1, h1])]
            rfl
      rw [hz]
      have := h.pos_lb
      omega
    · show (sys.trader.mBidVolume : Int) + remOpt (removeIf sys.exch.bid id) ≤
        POSITION_LIMIT - sys.trader.mPosition
      have h2 := remOpt_removeIf_le sys.exch.bid id
      have h3 := h.hB
      omega
  · by_cases h2 : id = sys.trader.mBidId
    · rw [orderStatus_terminal_bidSlot id f fees sys.trader h1 h2]
      refine ⟨h.newBid_eq, h.newAsk_eq, ?_, ?_, ?_, ?_, ?_, h.next_pos, ?_, ?_, ?_, ?_⟩
      · intro h0
        show sys.trader.mAskId ∈ sys.trader.mAsks.erase id
        have hmemA := h.askId_mem h0
        refine Finset.mem_erase.mpr ⟨?_, hmemA⟩
        intro heq
        exact h1 heq.symm
      · intro h0
        exact absurd rfl h0
      · intro j hj hj2
        exact h.disj j (Finset.mem_of_mem_erase hj) (Finset.mem_of_mem_erase hj2)
      · intro j hj
        exact h.asks_lt j (Finset.mem_of_mem_erase hj)
      · intro j hj
        exact h.bids_lt j (Finset.mem_of_mem_erase hj)
      · intro o ho
        show o.id = sys.trader.mAskId ∧ o.id ≠ 0
        cases hask : sys.exch.ask with
        | none =>
            rw [hask] at ho
            simp only [removeIf] at ho
            cases ho
        | some a =>
            rw [hask] at ho
            simp only [removeIf] at ho
            by_cases hae : a.id = id
            · rw [if_pos hae] at ho
              cases ho
            · rw [if_neg hae] at ho
              cases ho
              exact h.exch_ask _ hask
      · intro o ho
        show o.id = 0 ∧ o.id ≠ 0
        cases hbid : sys.exch.bid with
        | none =>
            rw [hbid] at ho
            simp only [removeIf] at ho
            cases ho
        | some b =>
            rw [hbid] at ho
            simp only [removeIf] at ho
            have hbo := h.exch_bid b hbid
            rw [if_pos (by rw [hbo.1, h2])] at ho
            cases ho
      · show (sys.trader.mAskVolume : Int) + remOpt (removeIf sys.exch.ask id) ≤
          sys.trader.mPosition + POSITION_LIMIT
        have h3 := remOpt_removeIf_le sys.exch.ask id
        have h4 := h.hA
        omega
      · show ((0 : Nat) : Int) + remOpt (removeIf sys.exch.bid id) ≤
          POSITION_LIMIT - sys.trader.mPosition
        have hz : remOpt (removeIf sys.exch.bid id) = 0 := by
          cases hbid : sys.exch.bid with
          | none => rfl
          | some b =>
              have hbo := h.exch_bid b hbid
              simp only [removeIf]
              rw [if_pos (by rw [hbo.1, h2])]
              rfl
        rw [hz]
        have := h.pos_ub
        omega
    · rw [orderStatus_terminal_none id f fees sys.trader h1 h2]
      refine ⟨h.newBid_eq, h.newAsk_eq, ?_, ?_, ?_, ?_, ?_, h.next_pos, ?_, ?_, ?_, ?_⟩
      · intro h0
        exact Finset.mem_erase.mpr ⟨fun heq => h1 heq.symm, h.askId_mem h0⟩
      · intro h0
        exact Finset.mem_erase.mpr ⟨fun heq => h2 heq.symm, h.bidId_mem h0⟩
      · intro j hj hj2
        exact h.disj j (Finset.mem_of_mem_erase hj) (Finset.mem_of_mem_erase hj2)
      · intro j hj
        exact h.asks_lt j (Finset.mem_of_mem_erase hj)
      · intro j hj
        exact h.bids_lt j (Finset.mem_of_mem_erase hj)
      · intro o ho
        show o.id = sys.trader.mAskId ∧ o.id ≠ 0
        cases hask : sys.exch.ask with
        | none =>
            rw [hask] at ho
            simp only [removeIf] at ho
            cases ho
        | some a =>
            rw [hask] at ho
            simp only [removeIf] at ho
            by_cases hae : a.id = id
            · rw [if_pos hae] at ho
              cases ho
            · rw [if_neg hae] at ho
              cases ho
              exact h.exch_ask _ hask
      · intro o ho
        show o.id = sys.trader.mBidId ∧ o.id ≠ 0
        cases hbid : sys.exch.bid with
        | none =>
            rw [hbid] at ho
            simp only [removeIf] at ho
            cases ho
        | some b =>
            rw [hbid] at ho
            simp only [removeIf] at ho
            by_cases hbe : b.id = id
            · rw [if_pos hbe] at ho
              cases ho
            · rw [if_neg hbe] at ho
              cases ho
              exact h.exch_bid _ hbid
      · show (sys.trader.mAskVolume : Int) + remOpt (removeIf sys.exch.ask id) ≤
          sys.trader.mPosition + POSITION_LIMIT
        have h3 := remOpt_removeIf_le sys.exch.ask id
        have h4 := h.hA
        omega
      · show (sys.trader.mBidVolume : Int) + remOpt (removeIf sys.exch.bid id) ≤
          POSITION_LIMIT - sys.trader.mPosition
        have h3 := remOpt_removeIf_le sys.exch.bid id
        have h4 := h.hB
        omega

theorem inv_status (id f rem : Nat) (fees : Int) (sys : Sys) (h : Inv sys)
    (hc : conformsB sys (Ev.orderStatus id f rem fees) = true) :
    Inv (sysStep sys (Ev.orderStatus id f rem fees)).1 := by
  have hPL : POSITION_LIMIT = (100 : Int) := rfl
  simp only [conformsB, decide_eq_true_eq] at hc
  simp only [sysStep]
  by_cases hrem : rem = 0
  · rw [if_pos hrem]
    subst hrem
    exact inv_statusTerminalCore id f fees sys h
  · rw [if_neg hrem]
    by_cases hf : 0 < f
    · by_cases h1 : id = sys.trader.mAskId
      · rw [orderStatus_partial_askSlot id f rem fees sys.trader hrem hf h1]
        have havLH : sys.trader.mAskVolume < LONG_HALF := by
          have h2 := h.hA
          have h3 := remOpt_nonneg sys.exch.ask
          have h4 := h.pos_ub
          rw [hPL] at h2 h4
          have h5 : (sys.trader.mAskVolume : Int) < (LONG_HALF : Int) := by
            rw [LONG_HALF_int]
            omega
          exact_mod_cast h5
        have hvol : toULong (max (toLong (toULong ((sys.trader.mAskVolume : Int) -
            (f : Int)))) 0) = sys.trader.mAskVolume - f := status_vol_eq havLH hc
        refine ⟨h.newBid_eq, h.newAsk_eq, h.askId_mem, h.bidId_mem, h.disj, h.asks_lt,
          h.bids_lt, h.next_pos, h.exch_ask, h.exch_bid, ?_, h.hB⟩
        show ((toULong (max (toLong (toULong ((sys.trader.mAskVolume : Int) -
            (f : Int)))) 0) : Nat) : Int) + remOpt sys.exch.ask ≤
          sys.trader.mPosition + POSITION_LIMIT
        rw [hvol]
        have h2 := h.hA
        have h3 : ((sys.trader.mAskVolume - f : Nat) : Int) ≤
            (sys.trader.mAskVolume : Int) := by
          exact_mod_cast Nat.sub_le _ _
        omega
      · by_cases h2 : id = sys.trader.mBidId
        · rw [orderStatus_partial_bidSlot id f rem fees sys.trader hrem hf h1 h2]
          have hbvLH : sys.trader.mBidVolume < LONG_HALF := by
            have h3 := h.hB
            have h4 := remOpt_nonneg sys.exch.bid
            have h5 := h.pos_lb
            rw [hPL] at h3 h5
            have h6 : (sys.trader.mBidVolume : Int) < (LONG_HALF : Int) := by
              rw [LONG_HALF_int]
              omega
            exact_mod_cast h6
          have hvol : toULong (max (toLong (toULong ((sys.trader.mBidVolume : Int) -
              (f : Int)))) 0) = sys.trader.mBidVolume - f := status_vol_eq hbvLH hc
          refine ⟨h.newBid_eq, h.newAsk_eq, h.askId_mem, h.bidId_mem, h.disj, h.asks_lt,
            h.bids_lt, h.next_pos, h.exch_ask, h.exch_bid, h.hA, ?_⟩
          show ((toULong (max (toLong (toULong ((sys.trader.mBidVolume : Int) -
              (f : Int)))) 0) : Nat) : Int) + remOpt sys.exch.bid ≤
            POSITION_LIMIT - sys.trader.mPosition
          rw [hvol]
          have h3 := h.hB
          have h4 : ((sys.trader.mBidVolume - f : Nat) : Int) ≤
              (sys.trader.mBidVolume : Int) := by
            exact_mod_cast Nat.sub_le _ _
          omega
        · rw [orderStatus_partial_none id f rem fees sys.trader hrem h1 h2]
          exact h
    · rw [orderStatus_nofill id f rem fees sys.trader hrem hf]
      exact h

theorem inv_error (id : Nat) (sys : Sys) (h : Inv sys) :
    Inv (sysStep sys (Ev.errorMessage id)).1 := by
  simp only [sysStep]
  unfold errorMessageHandler
  split
  · exact inv_statusTerminalCore id 0 0 sys h
  · refine ⟨h.newBid_eq, h.newAsk_eq, h.askId_mem, h.bidId_mem, h.disj, h.asks_lt,
      h.bids_lt, h.next_pos, ?_, ?_, ?_, ?_⟩
    · intro o ho
      show o.id = sys.trader.mAskId ∧ o.id ≠ 0
      cases hask : sys.exch.ask with
      | none =>
          rw [hask] at ho
          simp only [removeIf] at ho
          cases ho
      | some a =>
          rw [hask] at ho
          simp only [removeIf] at ho
          by_cases hae : a.id = id
          · rw [if_pos hae] at ho
            cases ho
          · rw [if_neg hae] at ho
            cases ho
            exact h.exch_ask _ hask
    · intro o ho
      show o.id = sys.trader.mBidId ∧ o.id ≠ 0
      cases hbid : sys.exch.bid with
      | none =>
          rw [hbid] at ho
          simp only [removeIf] at ho
          cases ho
      | some b =>
          rw [hbid] at ho
          simp only [removeIf] at ho
          by_cases hbe : b.id = id
          · rw [if_pos hbe] at ho
            cases ho
          · rw [if_neg hbe] at ho
            cases ho
            exact h.exch_bid _ hbid
    · show (sys.trader.mAskVolume : Int) + remOpt (removeIf sys.exch.ask id) ≤
        sys.trader.mPosition + POSITION_LIMIT
      have h2 := remOpt_removeIf_le sys.exch.ask id
      have h3 := h.hA
      omega
    · show (sys.trader.mBidVolume : Int) + remOpt (removeIf sys.exch.bid id) ≤
        POSITION_LIMIT - sys.trader.mPosition
      have h2 := remOpt_removeIf_le sys.exch.bid id
      have h3 := h.hB
      omega

theorem inv_book (instr : Instrument) (now aP bP : Nat) (sys : Sys) (h : Inv sys) :
    Inv (sysStep sys (Ev.orderBook instr now aP bP)).1 := by
  cases instr with
  | etf =>
      have he : orderBookMessageHandler Instrument.etf now aP bP sys.trader =
          (sys.trader, []) := by
        unfold orderBookMessageHandler
        rw [if_neg (by intro hx; cases hx)]
      simp only [sysStep, he]
      exact h
  | future =>
      simp only [sysStep]
      simp only [orderBookMessageHandler, eq_self_iff_true, if_true]
      set pA := cancelAskOrder aP sys.trader with hpA
      set pB := insertAskOrder aP pA.1.mNewAskVolume pA.1 with hpB
      set pC := cancelBidOrder bP pB.1 with hpC
      set pD := insertBidOrder bP pC.1.mNewBidVolume pC.1 with hpD
      set pE := hedgeOrder pD.1 with hpE
      have h1 : Inv ⟨pA.1, applyCommands sys.exch pA.2⟩ := by
        rw [hpA]
        exact inv_cancelAsk aP sys h
      have h2 : Inv ⟨pB.1, applyCommands (applyCommands sys.exch pA.2) pB.2⟩ := by
        rw [hpB]
        exact inv_insertAsk aP ⟨pA.1, applyCommands sys.exch pA.2⟩ h1
      have h3 : Inv ⟨pC.1,
          applyCommands (applyCommands (applyCommands sys.exch pA.2) pB.2) pC.2⟩ := by
        rw [hpC]
        exact inv_cancelBid bP ⟨pB.1, applyCommands (applyCommands sys.exch pA.2) pB.2⟩ h2
      have h4 : Inv ⟨pD.1, applyCommands (applyCommands (applyCommands
          (applyCommands sys.exch pA.2) pB.2) pC.2) pD.2⟩ := by
        rw [hpD]
        exact inv_insertBid bP ⟨pC.1,
          applyCommands (applyCommands (applyCommands sys.exch pA.2) pB.2) pC.2⟩ h3
      have happ : ∀ (x : Exch) (l1 l2 : List Command),
          applyCommands x (l1 ++ l2) = applyCommands (applyCommands x l1) l2 := by
        intro x l1 l2
        exact List.foldl_append _ _ _ _
      by_cases htol : |pD.1.mPosition + pD.1.mHedgePosition| ≤ MAX_UNHEDGED_LOTS
      · rw [if_pos htol]
        show Inv ⟨{ pD.1 with mStartTime := now },
          applyCommands sys.exch (pA.2 ++ pB.2 ++ pC.2 ++ pD.2)⟩
        rw [happ, happ, happ]
        exact inv_startTime now pD.1 _ h4
      · rw [if_neg htol]
        by_cases htim : UNHEDGED_LOTS_TIME_LIMIT ≤ now - pD.1.mStartTime
        · rw [if_pos htim]
          show Inv ⟨{ pE.1 with mStartTime := now },
            applyCommands sys.exch (pA.2 ++ pB.2 ++ pC.2 ++ pD.2 ++ pE.2)⟩
          rw [happ, happ, happ, happ]
          have h5 : Inv ⟨pE.1, applyCommands (applyCommands (applyCommands (applyCommands
              (applyCommands sys.exch pA.2) pB.2) pC.2) pD.2) pE.2⟩ := by
            rw [hpE]
            exact inv_hedge ⟨pD.1, applyCommands (applyCommands (applyCommands
              (applyCommands sys.exch pA.2) pB.2) pC.2) pD.2⟩ h4
          exact inv_startTime now pE.1 _ h5
        · rw [if_neg htim]
          show Inv ⟨pD.1, applyCommands sys.exch (pA.2 ++ pB.2 ++ pC.2 ++ pD.2)⟩
          rw [happ, happ, happ]
          exact h4

theorem inv_step (sys : Sys) (e : Ev) (h : Inv sys) (hc : conformsB sys e = true) :
    Inv (sysStep sys e).1 := by
  cases e with
  | orderBook instr now aP bP => exact inv_book instr now aP bP sys h
  | tradeTicks instr aP bP => exact h
  | orderFilled id p v => exact inv_fill id p v sys h hc
  | orderStatus id f rem fees => exact inv_status id f rem fees sys h hc
  | errorMessage id => exact inv_error id sys h
  | hedgeFilled id p v => exact h

theorem inv_exec (l : List Ev) (sys : Sys) (h : Inv sys)
    (hc : conformantB sys l = true) : Inv (execFrom sys l) := by
  induction l generalizing sys with
  | nil => exact h
  | cons e rest ih =>
      simp only [conformantB, Bool.and_eq_true] at hc
      exact ih _ (inv_step sys e h hc.1) hc.2

/-! ### C1: the position never leaves the limit -/

/-- C1: along every venue-conformant trace of events processed from
start-up (fills only fill a live order by at most its remaining volume,
reported fill volumes representable), the net position satisfies
`|Position| ≤ POSITION_LIMIT` after every prefix: the volume clamping of
the insert routines, the requested quote sizes and the retained tracked
volumes keep the total resting exposure of each side within the remaining
headroom, so even full fills of all resting exposure cannot break the
limit. -/
theorem position_within_limit (tr pre suf : List Ev)
    (hsplit : tr = pre ++ suf) (hc : conformantB initSys tr = true) :
    |(execFrom initSys pre).trader.mPosition| ≤ POSITION_LIMIT := by
  have hc2 : conformantB initSys pre = true := by
    subst hsplit
    exact conformantB_append _ _ _ hc
  have hinv := inv_exec pre initSys inv_init hc2
  rw [abs_le]
  exact ⟨hinv.pos_lb, hinv.pos_ub⟩

/-- A concrete conformant trace: quoting, a full fill of the ask, its
terminal status, and a re-quote at moved prices. -/
def c1Trace : List Ev :=
  [Ev.orderBook Instrument.future 0 10000 9900,
   Ev.orderFilled 1 10000 50,
   Ev.orderStatus 1 50 0 0,
   Ev.orderBook Instrument.future 1 10100 9800]

theorem position_within_limit_witness :
    c1Trace = c1Trace ++ [] ∧ conformantB initSys c1Trace = true ∧
    |(execFrom initSys c1Trace).trader.mPosition| ≤ POSITION_LIMIT :=
  ⟨(List.append_nil _).symm, by decide,
    position_within_limit c1Trace c1Trace [] (List.append_nil _).symm (by decide)⟩

/-! ### C7: events for unknown identifiers -/

/-- A conformant trace reaching a state whose bid slot is empty
(mBidId = 0) while a retained tracked bid volume is nonzero: quote both
sides, fill the bid fully, then a book update at a moved bid price cancels
the bid; the reinsert is blocked because the retained volume leaves no
headroom. -/
def c7Trace : List Ev :=
  [Ev.orderBook Instrument.future 0 10000 9900,
   Ev.orderFilled 2 9900 50,
   Ev.orderBook Instrument.future 1 10000 9800]

def c7State : State := (execFrom initSys c7Trace).trader

/-- C7 counterexample: in the reachable state `c7State` the identifier 0 is
absent from both live-order sets, yet a status update with identifier 0 and
remaining volume 0 changes the engine state (it matches the empty bid slot,
whose sentinel id is 0, and clears the retained tracked bid volume). -/
theorem unknown_id_counterexample :
    conformantB initSys c7Trace = true ∧
    (0 ∉ c7State.mAsks ∧ 0 ∉ c7State.mBids) ∧
    (orderStatusMessageHandler 0 0 0 0 c7State).1 ≠ c7State := by
  decide

/-- C7 amended: a status, fill or error callback whose identifier is
nonzero and absent from both live-order sets leaves the engine state of any
reachable (conformant-trace) state entirely unchanged and emits nothing.
(The nonzero requirement is forced by the counterexample above: the
identifier 0 equals the sentinel of an empty slot and a zero-remaining
status for it clears the retained tracked volume of that slot.) -/
theorem unknown_id_ignored (tr : List Ev) (hc : conformantB initSys tr = true)
    (id p v f rem : Nat) (fees : Int) (hid : id ≠ 0)
    (hnA : id ∉ (execFrom initSys tr).trader.mAsks)
    (hnB : id ∉ (execFrom initSys tr).trader.mBids) :
    orderFilledMessageHandler id p v (execFrom initSys tr).trader =
      ((execFrom initSys tr).trader, []) ∧
    orderStatusMessageHandler id f rem fees (execFrom initSys tr).trader =
      ((execFrom initSys tr).trader, []) ∧
    errorMessageHandler id (execFrom initSys tr).trader =
      ((execFrom initSys tr).trader, []) := by
  have hinv := inv_exec tr initSys inv_init hc
  have hneA : id ≠ (execFrom initSys tr).trader.mAskId := by
    intro he
    by_cases h0 : (execFrom initSys tr).trader.mAskId = 0
    · rw [h0] at he
      exact hid he
    · rw [he] at hnA
      exact hnA (hinv.askId_mem h0)
  have hneB : id ≠ (execFrom initSys tr).trader.mBidId := by
    intro he
    by_cases h0 : (execFrom initSys tr).trader.mBidId = 0
    · rw [h0] at he
      exact hid he
    · rw [he] at hnB
      exact hnB (hinv.bidId_mem h0)
  refine ⟨?_, ?_, ?_⟩
  · rw [orderFilled_eq_none id p v _ hnA hnB]
    have e2 : toULong ((execFrom initSys tr).trader.mPosition +
        (toULong (newBidVolumeCode (execFrom initSys tr).trader.mPosition) : Int)) =
        (execFrom initSys tr).trader.mNewAskVolume := by
      rw [← hinv.newBid_eq]
      exact hinv.newAsk_eq.symm
    rw [e2, ← hinv.newBid_eq]
  · by_cases hrem : rem = 0
    · subst hrem
      rw [orderStatus_terminal_none id f fees _ hneA hneB]
      rw [Finset.erase_eq_of_not_mem hnA, Finset.erase_eq_of_not_mem hnB]
    · by_cases hf : 0 < f
      · exact orderStatus_partial_none id f rem fees _ hrem hneA hneB
      · exact orderStatus_nofill id f rem fees _ hrem hf
  · unfold errorMessageHandler
    rw [if_neg]
    rintro ⟨-, hor⟩
    rcases hor with hm | hm
    · exact hnA hm
    · exact hnB hm

theorem unknown_id_ignored_witness :
    orderFilledMessageHandler 7 10000 5 (execFrom initSys []).trader =
      ((execFrom initSys []).trader, []) ∧
    orderStatusMessageHandler 7 0 0 0 (execFrom initSys []).trader =
      ((execFrom initSys []).trader, []) ∧
    errorMessageHandler 7 (execFrom initSys []).trader =
      ((execFrom initSys []).trader, []) :=
  unknown_id_ignored [] rfl 7 10000 5 0 0 0 (by norm_num) (by decide) (by decide)

/-! ### C4: the hedge debounce -/

def hasHedge (cs : List Command) : Bool :=
  cs.any fun c =>
    match c with
    | Command.hedgeOrder _ _ _ _ => true
    | _ => false

def stateAt (sys : Sys) (tr : List Ev) (i : Nat) : Sys := execFrom sys (tr.take i)

def outputsAt (sys : Sys) (tr : List Ev) (i : Nat) : List Command :=
  match tr[i]? with
  | some e => (sysStep (stateAt sys tr i) e).2
  | none => []

theorem cancelAskOrder_keeps (p : Nat) (s : State) :
    (cancelAskOrder p s).1.mPosition = s.mPosition ∧
    (cancelAskOrder p s).1.mHedgePosition = s.mHedgePosition ∧
    (cancelAskOrder p s).1.mStartTime = s.mStartTime := by
  unfold cancelAskOrder
  split
  · exact ⟨rfl, rfl, rfl⟩
  · exact ⟨rfl, rfl, rfl⟩

theorem cancelBidOrder_keeps (p : Nat) (s : State) :
    (cancelBidOrder p s).1.mPosition = s.mPosition ∧
    (cancelBidOrder p s).1.mHedgePosition = s.mHedgePosition ∧
    (cancelBidOrder p s).1.mStartTime = s.mStartTime := by
  unfold cancelBidOrder
  split
  · exact ⟨rfl, rfl, rfl⟩
  · exact ⟨rfl, rfl, rfl⟩

theorem insertAskOrder_keeps (p v : Nat) (s : State) :
    (insertAskOrder p v s).1.mPosition = s.mPosition ∧
    (insertAskOrder p v s).1.mHedgePosition = s.mHedgePosition ∧
    (insertAskOrder p v s).1.mStartTime = s.mStartTime := by
  simp only [insertAskOrder]
  split
  · exact ⟨rfl, rfl, rfl⟩
  · exact ⟨rfl, rfl, rfl⟩

theorem insertBidOrder_keeps (p v : Nat) (s : State) :
    (insertBidOrder p v s).1.mPosition = s.mPosition ∧
    (insertBidOrder p v s).1.mHedgePosition = s.mHedgePosition ∧
    (insertBidOrder p v s).1.mStartTime = s.mStartTime := by
  simp only [insertBidOrder]
  split
  · exact ⟨rfl, rfl, rfl⟩
  · exact ⟨rfl, rfl, rfl⟩

theorem orderFilled_startTime (id p v : Nat) (t : State) :
    (orderFilledMessageHandler id p v t).1.mStartTime = t.mStartTime := by
  simp only [orderFilledMessageHandler]
  split
  · rfl
  · split
    · rfl
    · rfl

theorem orderStatus_startTime (id f rem : Nat) (fees : Int) (t : State) :
    (orderStatusMessageHandler id f rem fees t).1.mStartTime = t.mStartTime := by
  unfold orderStatusMessageHandler
  split
  · split
    · rfl
    · split
      · rfl
      · rfl
  · split
    · split
      · rfl
      · split
        · rfl
        · rfl
    · rfl

theorem error_startTime (id : Nat) (t : State) :
    (errorMessageHandler id t).1.mStartTime = t.mStartTime := by
  unfold errorMessageHandler
  split
  · exact orderStatus_startTime id 0 0 0 t
  · rfl

/-- After a quoted-instrument book update the debounce timestamp is either
the observed clock value or unchanged. -/
theorem book_future_startTime (sys : Sys) (now aP bP : Nat) :
    ((sysStep sys (Ev.orderBook Instrument.future now aP bP)).1).trader.mStartTime = now ∨
    ((sysStep sys (Ev.orderBook Instrument.future now aP bP)).1).trader.mStartTime =
      sys.trader.mStartTime := by
  simp only [sysStep, orderBookMessageHandler, eq_self_iff_true, if_true]
  set pA := cancelAskOrder aP sys.trader with hpA
  set pB := insertAskOrder aP pA.1.mNewAskVolume pA.1 with hpB
  set pC := cancelBidOrder bP pB.1 with hpC
  set pD := insertBidOrder bP pC.1.mNewBidVolume pC.1 with hpD
  have hkeep : pD.1.mStartTime = sys.trader.mStartTime := by
    rw [hpD, (insertBidOrder_keeps _ _ _).2.2, hpC, (cancelBidOrder_keeps _ _).2.2,
      hpB, (insertAskOrder_keeps _ _ _).2.2, hpA, (cancelAskOrder_keeps _ _).2.2]
  by_cases htol : |pD.1.mPosition + pD.1.mHedgePosition| ≤ MAX_UNHEDGED_LOTS
  · rw [if_pos htol]
    exact Or.inl rfl
  · rw [if_neg htol]
    by_cases htim : UNHEDGED_LOTS_TIME_LIMIT ≤ now - pD.1.mStartTime
    · rw [if_pos htim]
      exact Or.inl rfl
    · rw [if_neg htim]
      exact Or.inr hkeep

/-- Any event leaves the debounce timestamp at its old value or sets it to
the clock value of a quoted-instrument book update. -/
theorem startTime_step_lb (sys : Sys) (e : Ev) (T : Nat)
    (h0 : T ≤ sys.trader.mStartTime)
    (hbook : ∀ instr t aP bP, e = Ev.orderBook instr t aP bP → T ≤ t) :
    T ≤ ((sysStep sys e).1).trader.mStartTime := by
  cases e with
  | orderBook instr now aP bP =>
      cases instr with
      | etf =>
          have he : orderBookMessageHandler Instrument.etf now aP bP sys.trader =
              (sys.trader, []) := by
            unfold orderBookMessageHandler
            rw [if_neg (by intro hx; cases hx)]
          simp only [sysStep, he]
          exact h0
      | future =>
          rcases book_future_startTime sys now aP bP with hst | hst
          · rw [hst]
            exact hbook Instrument.future now aP bP rfl
          · rw [hst]
            exact h0
  | tradeTicks instr aP bP => exact h0
  | orderFilled id p v =>
      show T ≤ (orderFilledMessageHandler id p v sys.trader).1.mStartTime
      rw [orderFilled_startTime]
      exact h0
  | orderStatus id f rem fees =>
      show T ≤ (orderStatusMessageHandler id f rem fees sys.trader).1.mStartTime
      rw [orderStatus_startTime]
      exact h0
  | errorMessage id =>
      show T ≤ (errorMessageHandler id sys.trader).1.mStartTime
      rw [error_startTime]
      exact h0
  | hedgeFilled id p v => exact h0

theorem startTime_exec_lb (l : List Ev) (sys : Sys) (T : Nat)
    (h0 : T ≤ sys.trader.mStartTime)
    (hbook : ∀ e ∈ l, ∀ instr t aP bP, e = Ev.orderBook instr t aP bP → T ≤ t) :
    T ≤ (execFrom sys l).trader.mStartTime := by
  induction l generalizing sys with
  | nil => exact h0
  | cons e rest ih =>
      refine ih _ (startTime_step_lb sys e T h0 ?_) ?_
      · intro instr t aP bP heq
        exact hbook e (List.mem_cons_self _ _) instr t aP bP heq
      · intro e2 he2 instr t aP bP heq
        exact hbook e2 (List.mem_cons_of_mem _ he2) instr t aP bP heq

/-- A quoted-instrument book update observed while the combined exposure is
within tolerance resets the debounce timestamp to the observed clock. -/
theorem startTime_reset (sys : Sys) (now aP bP : Nat)
    (htol : |sys.trader.mPosition + sys.trader.mHedgePosition| ≤ MAX_UNHEDGED_LOTS) :
    ((sysStep sys (Ev.orderBook Instrument.future now aP bP)).1).trader.mStartTime =
      now := by
  simp only [sysStep, orderBookMessageHandler, eq_self_iff_true, if_true]
  set pA := cancelAskOrder aP sys.trader with hpA
  set pB := insertAskOrder aP pA.1.mNewAskVolume pA.1 with hpB
  set pC := cancelBidOrder bP pB.1 with hpC
  set pD := insertBidOrder bP pC.1.mNewBidVolume pC.1 with hpD
  have hpos : pD.1.mPosition = sys.trader.mPosition := by
    rw [hpD, (insertBidOrder_keeps _ _ _).1, hpC, (cancelBidOrder_keeps _ _).1,
      hpB, (insertAskOrder_keeps _ _ _).1, hpA, (cancelAskOrder_keeps _ _).1]
  have hhedge : pD.1.mHedgePosition = sys.trader.mHedgePosition := by
    rw [hpD, (insertBidOrder_keeps _ _ _).2.1, hpC, (cancelBidOrder_keeps _ _).2.1,
      hpB, (insertAskOrder_keeps _ _ _).2.1, hpA, (cancelAskOrder_keeps _ _).2.1]
  rw [if_pos (by rw [hpos, hhedge]; exact htol)]

theorem hasHedge_append (l1 l2 : List Command) :
    hasHedge (l1 ++ l2) = (hasHedge l1 || hasHedge l2) := by
  unfold hasHedge
  exact List.any_append

theorem hasHedge_cancelAsk (p : Nat) (s : State) :
    hasHedge (cancelAskOrder p s).2 = false := by
  unfold cancelAskOrder
  split
  · rfl
  · rfl

theorem hasHedge_cancelBid (p : Nat) (s : State) :
    hasHedge (cancelBidOrder p s).2 = false := by
  unfold cancelBidOrder
  split
  · rfl
  · rfl

theorem hasHedge_insertAsk (p v : Nat) (s : State) :
    hasHedge (insertAskOrder p v s).2 = false := by
  simp only [insertAskOrder]
  split
  · rfl
  · rfl

theorem hasHedge_insertBid (p v : Nat) (s : State) :
    hasHedge (insertBidOrder p v s).2 = false := by
  simp only [insertBidOrder]
  split
  · rfl
  · rfl

/-- A hedge command can be emitted during a book update only when the
out-of-tolerance elif branch fires, which requires the observed clock to be
at least the debounce limit past the stored timestamp. -/
theorem hedge_fire_time (sys : Sys) (instr : Instrument) (now aP bP : Nat)
    (hfire : hasHedge ((sysStep sys (Ev.orderBook instr now aP bP)).2) = true) :
    sys.trader.mStartTime + UNHEDGED_LOTS_TIME_LIMIT ≤ now := by
  have hLIM : UNHEDGED_LOTS_TIME_LIMIT = 57500 := rfl
  cases instr with
  | etf =>
      have he : orderBookMessageHandler Instrument.etf now aP bP sys.trader =
          (sys.trader, []) := by
        unfold orderBookMessageHandler
        rw [if_neg (by intro hx; cases hx)]
      simp only [sysStep, he] at hfire
      cases hfire
  | future =>
      simp only [sysStep, orderBookMessageHandler, eq_self_iff_true, if_true] at hfire
      set pA := cancelAskOrder aP sys.trader with hpA
      set pB := insertAskOrder aP pA.1.mNewAskVolume pA.1 with hpB
      set pC := cancelBidOrder bP pB.1 with hpC
      set pD := insertBidOrder bP pC.1.mNewBidVolume pC.1 with hpD
      set pE := hedgeOrder pD.1 with hpE
      have hquiet : hasHedge (pA.2 ++ pB.2 ++ pC.2 ++ pD.2) = false := by
        rw [hasHedge_append, hasHedge_append, hasHedge_append]
        rw [hpA, hasHedge_cancelAsk, hpB, hasHedge_insertAsk, hpC, hasHedge_cancelBid,
          hpD, hasHedge_insertBid]
        rfl
      have hkeep : pD.1.mStartTime = sys.trader.mStartTime := by
        rw [hpD, (insertBidOrder_keeps _ _ _).2.2, hpC, (cancelBidOrder_keeps _ _).2.2,
          hpB, (insertAskOrder_keeps _ _ _).2.2, hpA, (cancelAskOrder_keeps _ _).2.2]
      by_cases htol : |pD.1.mPosition + pD.1.mHedgePosition| ≤ MAX_UNHEDGED_LOTS
      · rw [if_pos htol] at hfire
        rw [hquiet] at hfire
        cases hfire
      · rw [if_neg htol] at hfire
        by_cases htim : UNHEDGED_LOTS_TIME_LIMIT ≤ now - pD.1.mStartTime
        · rw [hkeep] at htim
          omega
        · rw [if_neg htim] at hfire
          rw [hquiet] at hfire
          cases hfire

theorem mem_drop_take {α : Type} (l : List α) (a : α) (m n : Nat)
    (h : a ∈ (l.take n).drop m) : ∃ k, m ≤ k ∧ k < n ∧ l[k]? = some a := by
  rw [List.mem_iff_getElem] at h
  obtain ⟨idx, hidx, hval⟩ := h
  have hlen := hidx
  rw [List.length_drop, List.length_take] at hlen
  have hb2 : m + idx < l.length := by omega
  refine ⟨m + idx, Nat.le_add_right _ _, by omega, ?_⟩
  rw [List.getElem_drop] at hval
  rw [List.getElem_take] at hval
  rw [List.getElem?_eq_getElem hb2]
  rw [hval]

/-- C4: a hedge is sent at a quoted-instrument book observation only if no
within-tolerance book observation happened less than the debounce duration
before it: if observation j (at clock tj) saw the combined exposure within
tolerance, the clocks of the book observations between j and i are not
before tj, and observation i (at clock ti) comes less than
UNHEDGED_LOTS_TIME_LIMIT after tj, then observation i emits no hedge order
-- the within-tolerance observation reset the timer, so a hedge cannot
fire across it even if the total elapsed span exceeds the debounce
duration. -/
theorem hedge_debounce (sys0 : Sys) (tr : List Ev) (j i : Nat)
    (tj ti aPj bPj aPi bPi : Nat)
    (hji : j < i) (hlen : i < tr.length)
    (hgetj : tr[j]? = some (Ev.orderBook Instrument.future tj aPj bPj))
    (hgeti : tr[i]? = some (Ev.orderBook Instrument.future ti aPi bPi))
    (htolj : |(stateAt sys0 tr j).trader.mPosition +
      (stateAt sys0 tr j).trader.mHedgePosition| ≤ MAX_UNHEDGED_LOTS)
    (hmono : ∀ k, j < k → k < i → ∀ instr t aP bP,
      tr[k]? = some (Ev.orderBook instr t aP bP) → tj ≤ t)
    (hspan : ti < tj + UNHEDGED_LOTS_TIME_LIMIT) :
    hasHedge (outputsAt sys0 tr i) = false := by
  by_contra hfire
  rw [Bool.not_eq_false] at hfire
  unfold outputsAt at hfire
  rw [hgeti] at hfire
  have hstep : stateAt sys0 tr (j + 1) =
      (sysStep (stateAt sys0 tr j) (Ev.orderBook Instrument.future tj aPj bPj)).1 := by
    unfold stateAt
    rw [List.take_succ, hgetj]
    rw [execFrom_append]
    rfl
  have h1 : tj ≤ (stateAt sys0 tr (j + 1)).trader.mStartTime := by
    rw [hstep, startTime_reset _ _ _ _ htolj]
  have h2 : stateAt sys0 tr i =
      execFrom (stateAt sys0 tr (j + 1)) ((tr.take i).drop (j + 1)) := by
    unfold stateAt
    have h3 : tr.take (j + 1) = (tr.take i).take (j + 1) := by
      rw [List.take_take]
      have : min (j + 1) i = j + 1 := by omega
      rw [this]
    rw [h3, ← execFrom_append, List.take_append_drop]
  have h4 : tj ≤ (stateAt sys0 tr i).trader.mStartTime := by
    rw [h2]
    refine startTime_exec_lb _ _ _ h1 ?_
    intro e he instr t aP bP heq
    obtain ⟨k, hk1, hk2, hk3⟩ := mem_drop_take tr e (j + 1) i he
    rw [heq] at hk3
    exact hmono k (by omega) hk2 instr t aP bP hk3
  have h5 := hedge_fire_time (stateAt sys0 tr i) Instrument.future ti aPi bPi hfire
  omega

/-- A two-observation trace: within tolerance at clock 100, then another
observation at clock 50000 (less than the debounce limit later). -/
def c4Trace : List Ev :=
  [Ev.orderBook Instrument.future 100 10000 9900,
   Ev.orderBook Instrument.future 50000 10100 9800]

theorem hedge_debounce_witness :
    (|(stateAt initSys c4Trace 0).trader.mPosition +
      (stateAt initSys c4Trace 0).trader.mHedgePosition| ≤ MAX_UNHEDGED_LOTS) ∧
    hasHedge (outputsAt initSys c4Trace 1) = false :=
  ⟨by decide,
    hedge_debounce initSys c4Trace 0 1 100 50000 10000 9900 10100 9800
      (by norm_num) (by norm_num [c4Trace]) rfl rfl (by decide)
      (by intro k h1 h2; omega) (by norm_num [UNHEDGED_LOTS_TIME_LIMIT])⟩

end AutoTrader
